import Mathlib

/-!
Firestorm `Lookuper`: the background reconciliation worker

A shallow embedding of `index/firestorm/lookup.go` and the properties of its
specification.

* Byte strings are lists of naturals; no arithmetic is done on them.
* `uint64` values are naturals; the three atomic counters are updated modulo `2 ^ 64`.
* Go's `error` is a `String`.
* The worker goroutines (one for each call of `Start`), the producers blocked inside
  `Notify` and the output of the package-level `logger` are explicit components of the
  state, and the concurrent execution is a labelled step function `step` whose labels
  are the actions of the goroutines.  A `select` with several ready cases may take any
  of them, as in Go.
* One call of `lookup` is one action of its worker: `lookup` reads the store through a
  snapshot, and writes shared state only through the call of the sink and the atomic
  additions at its end.
-/

namespace Bleve

/-- A byte string (`[]byte`). -/
abbrev Bytes := List Nat

/-- The modulus of `uint64` arithmetic. -/
def uint64Mod : Nat := 2 ^ 64

/-- Capacity of the work channel (`const channelBufferSize = 1000`). -/
def channelBufferSize : Nat := 1000

/-- The Go struct `lookupTask`. -/
structure lookupTask where
  docID : Bytes
  docNum : Nat
deriving DecidableEq, Repr

/-- The Go type `DocNumberList`: a slice of `uint64`. -/
abbrev DocNumberList := List Nat

/-- Modelled from the spec: the decoded term-frequency row; the row type is declared
outside `lookup.go` and `lookup` only reads its sequence number (`tfk.DocNum()`). -/
structure TermFreqRow where
  DocNum : Nat
deriving DecidableEq, Repr

/-- The row codec used by `lookup`, declared outside `lookup.go` and taken as a parameter:
the key prefix builder and the row decoder. -/
structure Codec where
  TermFreqPrefixFieldTermDocId : Nat → Bytes → Bytes → Bytes
  NewTermFreqRowKV : Bytes → Bytes → Except String TermFreqRow

/-- Modelled from the spec: a read-only snapshot of the store, its rows in key order. -/
structure KVReader where
  rows : List (Bytes × Bytes)
deriving DecidableEq, Repr

/-- One call `compensator.Migrate(docID, docNum, oldDocNums)`. -/
structure MigrateCall where
  docID : Bytes
  docNum : Nat
  oldDocNums : DocNumberList
deriving DecidableEq, Repr

/-- The lines written with `logger.Printf` in `lookup.go`. -/
inductive LogLine where
  | askedToQuit
  | workChannelClosed
  | fatal (err : String)
  | lookuperPrefix (pfx : Bytes)
  | seesKey (key : Bytes)
  | migrating (docID : Bytes) (docNum : Nat) (oldDocNums : DocNumberList)
deriving DecidableEq, Repr

/-- The parts of `*Firestorm` that `lookup` writes: the live document counter
`*f.docCount` and the migration sink `f.compensator`, recorded as the calls it received.
The result of `f.store.Reader()` is an input of `lookup`. -/
structure Firestorm where
  docCount : Nat
  compensator : List MigrateCall
deriving DecidableEq, Repr

/-- Where a goroutine started by `Start` is in `run`. -/
inductive Worker where
  | selecting
  | inLookup (task : lookupTask)
  | exited
deriving DecidableEq, Repr

/-- The Go struct `Lookuper` (`f`, `workChan`, `quit`, `closeWait`, `tasksQueued`,
`tasksDone`), together with the state that surrounds it: whether `workChan` was closed,
the tasks of the producers that are inside `Notify` between its two statements, the
worker goroutines in the order of their `Start`, and the lines logged so far. -/
structure Lookuper where
  f : Firestorm
  workChan : List lookupTask
  workChanClosed : Bool
  quit : Bool
  closeWait : Nat
  tasksQueued : Nat
  tasksDone : Nat
  sending : List lookupTask
  workers : List Worker
  logger : List LogLine
deriving DecidableEq, Repr

/-- The constructor `NewLookuper(f)`. -/
def NewLookuper (f : Firestorm) : Lookuper :=
  { f := f, workChan := [], workChanClosed := false, quit := false, closeWait := 0,
    tasksQueued := 0, tasksDone := 0, sending := [], workers := [], logger := [] }

/-- Modelled from the spec: the loop of the scan primitive `visitPrefix` over the rows
that match; the callback is called for each row in order, and the loop stops at the first
error or when the callback returns `false`.  The callback's captured variables are the
state `σ`. -/
def visitRows {σ : Type} (visit : σ → Bytes → Bytes → σ × Bool × Option String) :
    List (Bytes × Bytes) → σ → σ × Option String
  | [], s => (s, none)
  | kv :: rest, s =>
    match visit s kv.1 kv.2 with
    | (s1, _, some err) => (s1, some err)
    | (s1, false, none) => (s1, none)
    | (s1, true, none) => visitRows visit rest s1

/-- Modelled from the spec: the rows of a reader whose key begins with `pfx`. -/
def matchingRows (reader : KVReader) (pfx : Bytes) : List (Bytes × Bytes) :=
  reader.rows.filter (fun kv => pfx.isPrefixOf kv.1)

/-- Modelled from the spec: `visitPrefix(reader, prefix, visit)`, declared outside
`lookup.go`: calls back for each matching entry in key order. -/
def visitPrefix {σ : Type} (reader : KVReader) (pfx : Bytes)
    (visit : σ → Bytes → Bytes → σ × Bool × Option String) (init : σ) : σ × Option String :=
  visitRows visit (matchingRows reader pfx) init

/-- The callback that `lookup` passes to `visitPrefix` (lines 93-102); its captured
variables are the log and `docNums`. -/
def lookupVisit (c : Codec) (st : List LogLine × DocNumberList) (key val : Bytes) :
    (List LogLine × DocNumberList) × Bool × Option String :=
  match c.NewTermFreqRowKV key val with
  | Except.error err => ((st.1 ++ [LogLine.seesKey key], st.2), false, some err)
  | Except.ok tfk => ((st.1 ++ [LogLine.seesKey key], st.2 ++ [tfk.DocNum]), true, none)

/-- The loop of lines 107-112: `oldDocNums` grows by the `docNum`s that pass the test. -/
def oldDocNumsLoop (task : lookupTask) : DocNumberList → DocNumberList → DocNumberList
  | [], oldDocNums => oldDocNums
  | docNum :: rest, oldDocNums =>
    if task.docNum == 0 || decide (docNum < task.docNum) then
      oldDocNumsLoop task rest (oldDocNums ++ [docNum])
    else
      oldDocNumsLoop task rest oldDocNums

/-- Lines 115-121: the update of `*f.docCount`; `^uint64(0)` is `2 ^ 64 - 1`. -/
def updateDocCount (task : lookupTask) (oldDocNums : DocNumberList) (docCount : Nat) : Nat :=
  if oldDocNums.length == 0 && task.docNum != 0 then
    (docCount + 1) % uint64Mod
  else if decide (oldDocNums.length > 0) && task.docNum == 0 then
    (docCount + (uint64Mod - 1)) % uint64Mod
  else
    docCount

/-- Lines 90-102 of `lookup`: the scan of the rows under the task's own prefix, which
yields the log, `docNums` and the error of `visitPrefix`. -/
def lookupScan (c : Codec) (reader : KVReader) (logger : List LogLine) (task : lookupTask) :
    (List LogLine × DocNumberList) × Option String :=
  visitPrefix reader (c.TermFreqPrefixFieldTermDocId 0 [] task.docID) (lookupVisit c)
    (logger ++ [LogLine.lookuperPrefix (c.TermFreqPrefixFieldTermDocId 0 [] task.docID)], [])

/-- The method `(l *Lookuper) lookup(task)`; `rd` is what `l.f.store.Reader()` returns.  The deferred
`reader.Close()` only assigns the local `err`, which is not read again. -/
def lookup (c : Codec) (rd : Except String KVReader) (l : Lookuper) (task : lookupTask) :
    Lookuper :=
  match rd with
  | Except.error err => { l with logger := l.logger ++ [LogLine.fatal err] }
  | Except.ok reader =>
    match lookupScan c reader l.logger task with
    | ((lg, _), some err) => { l with logger := lg ++ [LogLine.fatal err] }
    | ((lg, docNums), none) =>
      { l with
        f :=
          { docCount := updateDocCount task (oldDocNumsLoop task docNums []) l.f.docCount,
            compensator := l.f.compensator ++
              [MigrateCall.mk task.docID task.docNum (oldDocNumsLoop task docNums [])] },
        logger := lg ++
          [LogLine.migrating task.docID task.docNum (oldDocNumsLoop task docNums [])],
        tasksDone := (l.tasksDone + 1) % uint64Mod }

/-- The actions of the goroutines around a `Lookuper`. -/
inductive Event where
  /-- First statement of `Notify` (line 46): `atomic.AddUint64(&l.tasksQueued, 1)`. -/
  | NotifyAdd (docNum : Nat) (docID : Bytes)
  /-- Second statement of `Notify` (line 47): the send of the task on `workChan` completes. -/
  | NotifySend (task : lookupTask)
  /-- The call `Start()`: `closeWait.Add(1)` and a new goroutine in `run`. -/
  | Start
  /-- First statement of `Stop` (line 56): `close(l.quit)`. -/
  | StopClose
  /-- Second statement of `Stop` (line 57): `l.closeWait.Wait()` returns. -/
  | StopWait
  /-- In `run`, the `select` of worker `i` takes `case <-l.quit`. -/
  | runQuit (i : Nat)
  /-- In `run`, the `select` of worker `i` takes `case task, ok := <-l.workChan`. -/
  | runRecv (i : Nat)
  /-- In `run` (line 73), worker `i` runs `l.lookup(task)`, the store handing out `rd`. -/
  | runLookup (i : Nat) (rd : Except String KVReader)
  /-- Something outside `lookup.go` closes `workChan`. -/
  | closeWorkChan

/-- One action; `none` when the action is blocked, or panics, in that state. -/
def step (c : Codec) (l : Lookuper) : Event → Option Lookuper
  | Event.NotifyAdd docNum docID =>
    some { l with
      tasksQueued := (l.tasksQueued + 1) % uint64Mod,
      sending := l.sending ++ [lookupTask.mk docID docNum] }
  | Event.NotifySend task =>
    if task ∈ l.sending ∧ l.workChan.length < channelBufferSize ∧ l.workChanClosed = false then
      some { l with sending := l.sending.erase task, workChan := l.workChan ++ [task] }
    else none
  | Event.Start =>
    some { l with closeWait := l.closeWait + 1, workers := l.workers ++ [Worker.selecting] }
  | Event.StopClose =>
    if l.quit = false then some { l with quit := true } else none
  | Event.StopWait =>
    if l.quit = true ∧ l.closeWait = 0 then some l else none
  | Event.runQuit i =>
    match l.workers[i]? with
    | some Worker.selecting =>
      if l.quit = true then
        some { l with
          logger := l.logger ++ [LogLine.askedToQuit],
          closeWait := l.closeWait - 1,
          workers := l.workers.set i Worker.exited }
      else none
    | _ => none
  | Event.runRecv i =>
    match l.workers[i]?, l.workChan with
    | some Worker.selecting, task :: rest =>
      some { l with workChan := rest, workers := l.workers.set i (Worker.inLookup task) }
    | some Worker.selecting, [] =>
      if l.workChanClosed = true then
        some { l with
          logger := l.logger ++ [LogLine.workChannelClosed],
          workers := l.workers.set i Worker.exited }
      else none
    | _, _ => none
  | Event.runLookup i rd =>
    match l.workers[i]? with
    | some (Worker.inLookup task) =>
      some { lookup c rd l task with workers := l.workers.set i Worker.selecting }
    | _ => none
  | Event.closeWorkChan =>
    if l.workChanClosed = false then some { l with workChanClosed := true } else none

/-- A run: the actions of a list, one after the other. -/
def exec (c : Codec) : Lookuper → List Event → Option Lookuper
  | l, [] => some l
  | l, e :: es =>
    match step c l e with
    | none => none
    | some l1 => exec c l1 es

/-- The method `waitTasksDone`: the check made at each tick (lines 137-141), on a state that no
longer changes, for the number of ticks that come before the timeout. -/
def waitTasksDone (l : Lookuper) : Nat → Except String Unit
  | 0 => Except.error "timeout"
  | ticks + 1 => if l.tasksQueued == l.tasksDone then Except.ok () else waitTasksDone l ticks

/-- The sequence numbers that decode from the rows under a document's own prefix, in
scan order: what the scan of `lookup` observes when no row fails to decode. -/
def scannedDocNums (c : Codec) (reader : KVReader) (docID : Bytes) : DocNumberList :=
  (matchingRows reader (c.TermFreqPrefixFieldTermDocId 0 [] docID)).filterMap
    (fun kv =>
      match c.NewTermFreqRowKV kv.1 kv.2 with
      | Except.ok tfk => some tfk.DocNum
      | Except.error _ => none)

/-- A small concrete codec for the evaluation of the model at concrete inputs: the prefix
is `'t'`, the field, the term, a separator, the document identifier and a separator; a
row decodes to the last byte of its key, and a last byte of 254 is a corrupt row. -/
def demoCodec : Codec :=
  { TermFreqPrefixFieldTermDocId := fun field term docID =>
      [116, field % 256, field / 256] ++ term ++ [255] ++ docID ++ [255],
    NewTermFreqRowKV := fun key _ =>
      match key.getLast? with
      | none => Except.error "empty key"
      | some n => if n = 254 then Except.error "corrupt row" else Except.ok (TermFreqRow.mk n) }

/-- A snapshot for `demoCodec`: document `[1]` has rows at sequence numbers 3 and 5,
document `[2]` a row at sequence number 9, document `[4]` a row at sequence number 0 and
document `[7]` a row at 6, a corrupt row and a row at 8. -/
def demoReader : KVReader :=
  { rows :=
      [ ([116, 0, 0, 255, 1, 255, 3], []),
        ([116, 0, 0, 255, 1, 255, 5], []),
        ([116, 0, 0, 255, 2, 255, 9], []),
        ([116, 0, 0, 255, 4, 255, 0], []),
        ([116, 0, 0, 255, 7, 255, 6], []),
        ([116, 0, 0, 255, 7, 255, 254], []),
        ([116, 0, 0, 255, 7, 255, 8], []) ] }

/-- Number of `lookuper fatal` lines in a log: the number of tasks that failed. -/
def fatalCount (lg : List LogLine) : Nat :=
  lg.countP (fun line => match line with
    | LogLine.fatal _ => true
    | _ => false)

/-- The state from which the concrete evaluations start: a counter at `docCount`, no
migration call yet. -/
def demoLookuper (docCount : Nat) : Lookuper :=
  NewLookuper { docCount := docCount, compensator := [] }

/-- Whether a row decodes (`NewTermFreqRowKV` returns no error). -/
def decodes (c : Codec) (kv : Bytes × Bytes) : Bool :=
  match c.NewTermFreqRowKV kv.1 kv.2 with
  | Except.ok _ => true
  | Except.error _ => false

/-- Whether `lookup` completes for a task without a reader or scan error: the reader is
acquired and every row under the task's own prefix decodes. -/
def lookupOk (c : Codec) (task : lookupTask) (rd : Except String KVReader) : Bool :=
  match rd with
  | Except.error _ => false
  | Except.ok reader =>
    (matchingRows reader (c.TermFreqPrefixFieldTermDocId 0 [] task.docID)).all (decodes c)

/-- The call to `Migrate` for a task and a snapshot: the sequence numbers scanned under the
task's own prefix, through the loop of lines 107-112. -/
def migrateCall (c : Codec) (task : lookupTask) (reader : KVReader) : MigrateCall :=
  MigrateCall.mk task.docID task.docNum
    (oldDocNumsLoop task (scannedDocNums c reader task.docID) [])

/-- The call to `Migrate`, if any, of one completed `lookup`. -/
def migrateCallOf (c : Codec) (p : lookupTask × Except String KVReader) : Option MigrateCall :=
  match p.2 with
  | Except.error _ => none
  | Except.ok reader => if lookupOk c p.1 p.2 then some (migrateCall c p.1 reader) else none

/-- The task that a worker has received and not yet finished, as a list. -/
def inFlight : Worker → List lookupTask
  | Worker.inLookup task => [task]
  | _ => []

/-- The tasks that the workers have received and not yet finished. -/
def inFlightAll : List Worker → List lookupTask
  | [] => []
  | w :: ws => inFlight w ++ inFlightAll ws

/-- Number of calls of `Notify` in a run. -/
def notifyCount : List Event → Nat
  | [] => 0
  | Event.NotifyAdd _ _ :: es => notifyCount es + 1
  | _ :: es => notifyCount es

/-- The tasks admitted to `workChan` in a run, in the order of admission. -/
def sentTasks : List Event → List lookupTask
  | [] => []
  | Event.NotifySend task :: es => task :: sentTasks es
  | _ :: es => sentTasks es

/-- The call of `lookup` made by one action: the task and what the store handed out. -/
def stepHistory (l : Lookuper) : Event → List (lookupTask × Except String KVReader)
  | Event.runLookup i rd =>
    match l.workers[i]? with
    | some (Worker.inLookup task) => [(task, rd)]
    | _ => []
  | _ => []

/-- What the store handed out to the calls of `lookup` of a run, in order. -/
def handedOut : List Event → List (Except String KVReader)
  | [] => []
  | Event.runLookup _ rd :: es => rd :: handedOut es
  | _ :: es => handedOut es

/-- The calls of `lookup` made in a run, in order. -/
def history (c : Codec) : Lookuper → List Event → List (lookupTask × Except String KVReader)
  | _, [] => []
  | l, e :: es =>
    match step c l e with
    | none => []
    | some l1 => stepHistory l e ++ history c l1 es

/-- Number of calls of `lookup` in a history that completed without error. -/
def okCount (c : Codec) (hist : List (lookupTask × Except String KVReader)) : Nat :=
  hist.countP (fun p => lookupOk c p.1 p.2)

/-- The worker processing, one after the other and against the same snapshot, one task
per target sequence number for the same document. -/
def lookupEach (c : Codec) (reader : KVReader) (docID : Bytes) :
    Lookuper → List Nat → Lookuper
  | l, [] => l
  | l, v :: rest =>
    lookupEach c reader docID (lookup c (Except.ok reader) l (lookupTask.mk docID v)) rest

/-- A run of the concrete system: two tasks for two documents are notified, the worker
is started and processes both against `demoReader`. -/
def demoRun : List Event :=
  [ Event.NotifyAdd 7 [1], Event.NotifySend (lookupTask.mk [1] 7),
    Event.NotifyAdd 0 [2], Event.NotifySend (lookupTask.mk [2] 0),
    Event.Start,
    Event.runRecv 0, Event.runLookup 0 (Except.ok demoReader),
    Event.runRecv 0, Event.runLookup 0 (Except.ok demoReader) ]

/-- A run of the concrete system in which `Stop` closes the quit signal while a task is
still pending in the queue and the worker is at its `select`. -/
def demoStopRun : List Event :=
  [ Event.Start, Event.NotifyAdd 7 [1], Event.NotifySend (lookupTask.mk [1] 7),
    Event.StopClose ]

/-- The state that `demoStopRun` reaches from `demoLookuper 4`. -/
def demoStopState : Lookuper :=
  { demoLookuper 4 with
    workChan := [lookupTask.mk [1] 7],
    quit := true,
    closeWait := 1,
    tasksQueued := 1,
    workers := [Worker.selecting] }

/-- A run of the concrete system in which the only task fails: the scan of document
`[7]` meets a corrupt row. -/
def demoFailRun : List Event :=
  [ Event.NotifyAdd 9 [7], Event.NotifySend (lookupTask.mk [7] 9), Event.Start,
    Event.runRecv 0, Event.runLookup 0 (Except.ok demoReader) ]

/-- The state that `demoFailRun` reaches from `demoLookuper 4`. -/
def demoFailState : Lookuper :=
  { demoLookuper 4 with
    closeWait := 1,
    tasksQueued := 1,
    workers := [Worker.selecting],
    logger :=
      [LogLine.lookuperPrefix [116, 0, 0, 255, 7, 255],
       LogLine.seesKey [116, 0, 0, 255, 7, 255, 6],
       LogLine.seesKey [116, 0, 0, 255, 7, 255, 254],
       LogLine.fatal "corrupt row"] }

/-- The state that `demoRun` reaches from `demoLookuper 4`. -/
def demoRunState : Lookuper :=
  { demoLookuper 4 with
    f := Firestorm.mk 3 [MigrateCall.mk [1] 7 [3, 5], MigrateCall.mk [2] 0 [9]],
    closeWait := 1,
    tasksQueued := 2,
    tasksDone := 2,
    workers := [Worker.selecting],
    logger :=
      [LogLine.lookuperPrefix [116, 0, 0, 255, 1, 255],
       LogLine.seesKey [116, 0, 0, 255, 1, 255, 3],
       LogLine.seesKey [116, 0, 0, 255, 1, 255, 5],
       LogLine.migrating [1] 7 [3, 5],
       LogLine.lookuperPrefix [116, 0, 0, 255, 2, 255],
       LogLine.seesKey [116, 0, 0, 255, 2, 255, 9],
       LogLine.migrating [2] 0 [9]] }

/-- A snapshot for `demoCodec` with two documents whose identifiers are distinct: a row
of document `[1]` at sequence number 3 and a row of document `[1, 255, 2]` at sequence
number 5.  The key of each row is the prefix of its document followed by the sequence
number. -/
def demoLeakReader : KVReader :=
  { rows :=
      [ ([116, 0, 0, 255, 1, 255, 3], []),
        ([116, 0, 0, 255, 1, 255, 2, 255, 5], []) ] }

/-- A run of the concrete system: a task for each of the two documents of
`demoLeakReader` is notified, and one worker processes both against that snapshot. -/
def demoLeakRun : List Event :=
  [ Event.NotifyAdd 7 [1], Event.NotifySend (lookupTask.mk [1] 7),
    Event.NotifyAdd 7 [1, 255, 2], Event.NotifySend (lookupTask.mk [1, 255, 2] 7),
    Event.Start,
    Event.runRecv 0, Event.runLookup 0 (Except.ok demoLeakReader),
    Event.runRecv 0, Event.runLookup 0 (Except.ok demoLeakReader) ]

/-! ## Theorems -/

theorem oldDocNumsLoop_eq (task : lookupTask) (docNums acc : DocNumberList) :
    oldDocNumsLoop task docNums acc =
      acc ++ docNums.filter (fun d => task.docNum == 0 || decide (d < task.docNum)) := by
  induction docNums generalizing acc with
  | nil => simp [oldDocNumsLoop]
  | cons d rest ih =>
    by_cases h : (task.docNum == 0 || decide (d < task.docNum)) = true
    · simp only [oldDocNumsLoop, h, if_true, ih, List.filter_cons_of_pos, List.append_assoc,
        List.singleton_append]
    · have hf : List.filter (fun d => task.docNum == 0 || decide (d < task.docNum)) (d :: rest)
          = List.filter (fun d => task.docNum == 0 || decide (d < task.docNum)) rest :=
        List.filter_cons_of_neg h
      rw [hf]
      simp only [oldDocNumsLoop, h, ih]
      simp

theorem oldDocNumsLoop_zero (task : lookupTask) (docNums : DocNumberList)
    (h : task.docNum = 0) : oldDocNumsLoop task docNums [] = docNums := by
  rw [oldDocNumsLoop_eq]
  simp [h]

theorem oldDocNumsLoop_pos (task : lookupTask) (docNums : DocNumberList)
    (h : task.docNum ≠ 0) :
    oldDocNumsLoop task docNums [] = docNums.filter (fun d => decide (d < task.docNum)) := by
  rw [oldDocNumsLoop_eq]
  have hb : (task.docNum == 0) = false := by simpa using h
  simp [hb]

theorem lookup_error (c : Codec) (err : String) (l : Lookuper) (task : lookupTask) :
    lookup c (Except.error err) l task = { l with logger := l.logger ++ [LogLine.fatal err] } :=
  rfl

theorem lookup_scan_error (c : Codec) (reader : KVReader) (l : Lookuper) (task : lookupTask)
    (lg : List LogLine) (docNums : DocNumberList) (err : String)
    (h : lookupScan c reader l.logger task = ((lg, docNums), some err)) :
    lookup c (Except.ok reader) l task = { l with logger := lg ++ [LogLine.fatal err] } := by
  simp only [lookup, h]

theorem lookup_ok (c : Codec) (reader : KVReader) (l : Lookuper) (task : lookupTask)
    (lg : List LogLine) (docNums : DocNumberList)
    (h : lookupScan c reader l.logger task = ((lg, docNums), none)) :
    lookup c (Except.ok reader) l task =
      { l with
        f :=
          { docCount := updateDocCount task (oldDocNumsLoop task docNums []) l.f.docCount,
            compensator := l.f.compensator ++
              [MigrateCall.mk task.docID task.docNum (oldDocNumsLoop task docNums [])] },
        logger := lg ++
          [LogLine.migrating task.docID task.docNum (oldDocNumsLoop task docNums [])],
        tasksDone := (l.tasksDone + 1) % uint64Mod } := by
  simp only [lookup, h]

/-! ### The scan -/

theorem visitRows_lookupVisit_none (c : Codec) (rows : List (Bytes × Bytes))
    (lg lg1 : List LogLine) (ds ds1 : DocNumberList)
    (h : visitRows (lookupVisit c) rows (lg, ds) = ((lg1, ds1), none)) :
    ds1 = ds ++ rows.filterMap (fun kv =>
        match c.NewTermFreqRowKV kv.1 kv.2 with
        | Except.ok tfk => some tfk.DocNum
        | Except.error _ => none) ∧
      lg1 = lg ++ rows.map (fun kv => LogLine.seesKey kv.1) ∧
      ∀ kv ∈ rows, ∃ tfk, c.NewTermFreqRowKV kv.1 kv.2 = Except.ok tfk := by
  induction rows generalizing lg ds with
  | nil =>
    simp only [visitRows, Prod.mk.injEq, and_true] at h
    simp [h.1, h.2]
  | cons kv rest ih =>
    cases hd : c.NewTermFreqRowKV kv.1 kv.2 with
    | error e => simp [visitRows, lookupVisit, hd] at h
    | ok tfk =>
      simp only [visitRows, lookupVisit, hd] at h
      obtain ⟨h1, h2, h3⟩ := ih _ _ h
      refine ⟨?_, ?_, ?_⟩
      · simp [h1, hd]
      · simp [h2]
      · intro kv1 hkv1
        rcases List.mem_cons.1 hkv1 with rfl | hmem
        · exact ⟨tfk, hd⟩
        · exact h3 kv1 hmem

theorem visitRows_lookupVisit_all_ok (c : Codec) (rows : List (Bytes × Bytes))
    (lg : List LogLine) (ds : DocNumberList)
    (h : ∀ kv ∈ rows, ∃ tfk, c.NewTermFreqRowKV kv.1 kv.2 = Except.ok tfk) :
    visitRows (lookupVisit c) rows (lg, ds) =
      ((lg ++ rows.map (fun kv => LogLine.seesKey kv.1),
        ds ++ rows.filterMap (fun kv =>
          match c.NewTermFreqRowKV kv.1 kv.2 with
          | Except.ok tfk => some tfk.DocNum
          | Except.error _ => none)), none) := by
  induction rows generalizing lg ds with
  | nil => simp [visitRows]
  | cons kv rest ih =>
    obtain ⟨tfk, hd⟩ := h kv (List.mem_cons_self _ _)
    simp only [visitRows, lookupVisit, hd]
    rw [ih _ _ (fun kv1 hkv1 => h kv1 (List.mem_cons_of_mem _ hkv1))]
    simp [hd]

theorem visitRows_lookupVisit_first_error (c : Codec) (pre post : List (Bytes × Bytes))
    (kv : Bytes × Bytes) (err : String) (lg : List LogLine) (ds : DocNumberList)
    (hpre : ∀ kv1 ∈ pre, ∃ tfk, c.NewTermFreqRowKV kv1.1 kv1.2 = Except.ok tfk)
    (hkv : c.NewTermFreqRowKV kv.1 kv.2 = Except.error err) :
    visitRows (lookupVisit c) (pre ++ kv :: post) (lg, ds) =
      ((lg ++ pre.map (fun kv1 => LogLine.seesKey kv1.1) ++ [LogLine.seesKey kv.1],
        ds ++ pre.filterMap (fun kv1 =>
          match c.NewTermFreqRowKV kv1.1 kv1.2 with
          | Except.ok tfk => some tfk.DocNum
          | Except.error _ => none)), some err) := by
  induction pre generalizing lg ds with
  | nil => simp [visitRows, lookupVisit, hkv]
  | cons kv0 rest ih =>
    obtain ⟨tfk, hd⟩ := hpre kv0 (List.mem_cons_self _ _)
    have hrec := ih (lg ++ [LogLine.seesKey kv0.1]) (ds ++ [tfk.DocNum])
      (fun kv1 hkv1 => hpre kv1 (List.mem_cons_of_mem _ hkv1))
    rw [List.cons_append]
    simp only [visitRows, lookupVisit, hd]
    rw [hrec]
    simp [hd]

theorem visitRows_lookupVisit_fatalCount (c : Codec) (rows : List (Bytes × Bytes))
    (lg : List LogLine) (ds : DocNumberList) :
    fatalCount (visitRows (lookupVisit c) rows (lg, ds)).1.1 = fatalCount lg := by
  induction rows generalizing lg ds with
  | nil => simp [visitRows]
  | cons kv rest ih =>
    cases hd : c.NewTermFreqRowKV kv.1 kv.2 with
    | error e => simp [visitRows, lookupVisit, hd, fatalCount]
    | ok tfk =>
      simp only [visitRows, lookupVisit, hd]
      rw [ih]
      simp [fatalCount]

theorem lookupScan_none (c : Codec) (reader : KVReader) (logger : List LogLine)
    (task : lookupTask) (lg : List LogLine) (docNums : DocNumberList)
    (h : lookupScan c reader logger task = ((lg, docNums), none)) :
    docNums = scannedDocNums c reader task.docID := by
  have := (visitRows_lookupVisit_none c _ _ _ _ _ h).1
  simpa [scannedDocNums] using this

theorem exists_first_failing {α : Type} (p : α → Bool) (rows : List α)
    (h : rows.all p = false) :
    ∃ pre kv post, rows = pre ++ kv :: post ∧ (∀ x ∈ pre, p x = true) ∧ p kv = false := by
  induction rows with
  | nil => simp at h
  | cons a rest ih =>
    by_cases ha : p a = true
    · have hr : rest.all p = false := by
        simpa [List.all_cons, ha] using h
      obtain ⟨pre, kv, post, h1, h2, h3⟩ := ih hr
      refine ⟨a :: pre, kv, post, by simp [h1], ?_, h3⟩
      intro x hx
      rcases List.mem_cons.1 hx with rfl | hm
      · exact ha
      · exact h2 x hm
    · exact ⟨[], a, rest, rfl, by simp, by simpa using ha⟩

theorem decodes_true (c : Codec) (kv : Bytes × Bytes) :
    decodes c kv = true ↔ ∃ tfk, c.NewTermFreqRowKV kv.1 kv.2 = Except.ok tfk := by
  unfold decodes
  cases c.NewTermFreqRowKV kv.1 kv.2 <;> simp

theorem decodes_false (c : Codec) (kv : Bytes × Bytes) :
    decodes c kv = false ↔ ∃ err, c.NewTermFreqRowKV kv.1 kv.2 = Except.error err := by
  unfold decodes
  cases c.NewTermFreqRowKV kv.1 kv.2 <;> simp

theorem lookupScan_of_ok (c : Codec) (reader : KVReader) (lg : List LogLine)
    (task : lookupTask) (h : lookupOk c task (Except.ok reader) = true) :
    lookupScan c reader lg task =
      ((lg ++ [LogLine.lookuperPrefix (c.TermFreqPrefixFieldTermDocId 0 [] task.docID)] ++
          (matchingRows reader (c.TermFreqPrefixFieldTermDocId 0 [] task.docID)).map
            (fun kv => LogLine.seesKey kv.1),
        scannedDocNums c reader task.docID), none) := by
  have hall : ∀ kv ∈ matchingRows reader (c.TermFreqPrefixFieldTermDocId 0 [] task.docID),
      ∃ tfk, c.NewTermFreqRowKV kv.1 kv.2 = Except.ok tfk := by
    intro kv hkv
    exact (decodes_true c kv).1 (List.all_eq_true.1 h kv hkv)
  unfold lookupScan visitPrefix
  rw [visitRows_lookupVisit_all_ok c _ _ _ hall]
  simp [scannedDocNums]

theorem lookupScan_first_error (c : Codec) (reader : KVReader) (lg : List LogLine)
    (task : lookupTask) (pre post : List (Bytes × Bytes)) (kv : Bytes × Bytes) (err : String)
    (hrows : matchingRows reader (c.TermFreqPrefixFieldTermDocId 0 [] task.docID) =
      pre ++ kv :: post)
    (hpre : ∀ kv1 ∈ pre, ∃ tfk, c.NewTermFreqRowKV kv1.1 kv1.2 = Except.ok tfk)
    (hkv : c.NewTermFreqRowKV kv.1 kv.2 = Except.error err) :
    lookupScan c reader lg task =
      ((lg ++ [LogLine.lookuperPrefix (c.TermFreqPrefixFieldTermDocId 0 [] task.docID)] ++
          pre.map (fun kv1 => LogLine.seesKey kv1.1) ++ [LogLine.seesKey kv.1],
        [] ++ pre.filterMap (fun kv1 =>
          match c.NewTermFreqRowKV kv1.1 kv1.2 with
          | Except.ok tfk => some tfk.DocNum
          | Except.error _ => none)), some err) := by
  unfold lookupScan visitPrefix
  rw [hrows]
  exact visitRows_lookupVisit_first_error c pre post kv err _ _ hpre hkv

theorem lookupScan_of_fail (c : Codec) (reader : KVReader) (lg : List LogLine)
    (task : lookupTask) (h : lookupOk c task (Except.ok reader) = false) :
    ∃ lg1 ds err, lookupScan c reader lg task = ((lg1, ds), some err) ∧
      fatalCount lg1 = fatalCount lg := by
  obtain ⟨pre, kv, post, h1, h2, h3⟩ := exists_first_failing (decodes c) _ h
  obtain ⟨err, herr⟩ := (decodes_false c kv).1 h3
  have hpre : ∀ kv1 ∈ pre, ∃ tfk, c.NewTermFreqRowKV kv1.1 kv1.2 = Except.ok tfk :=
    fun kv1 hkv1 => (decodes_true c kv1).1 (h2 kv1 hkv1)
  refine ⟨_, _, err, lookupScan_first_error c reader lg task pre post kv err h1 hpre herr, ?_⟩
  simp [fatalCount, List.countP_append]

/-- What one call of `lookup` does to each component of the state. -/
theorem lookup_effect (c : Codec) (rd : Except String KVReader) (l : Lookuper)
    (task : lookupTask) :
    (lookup c rd l task).workChan = l.workChan ∧
    (lookup c rd l task).workChanClosed = l.workChanClosed ∧
    (lookup c rd l task).quit = l.quit ∧
    (lookup c rd l task).closeWait = l.closeWait ∧
    (lookup c rd l task).tasksQueued = l.tasksQueued ∧
    (lookup c rd l task).sending = l.sending ∧
    (lookup c rd l task).workers = l.workers ∧
    (lookupOk c task rd = true →
      (lookup c rd l task).f.compensator =
        l.f.compensator ++ (migrateCallOf c (task, rd)).toList ∧
      (lookup c rd l task).tasksDone = (l.tasksDone + 1) % uint64Mod ∧
      fatalCount (lookup c rd l task).logger = fatalCount l.logger) ∧
    (lookupOk c task rd = false →
      (lookup c rd l task).f = l.f ∧
      (lookup c rd l task).tasksDone = l.tasksDone ∧
      fatalCount (lookup c rd l task).logger = fatalCount l.logger + 1) := by
  cases rd with
  | error err =>
    simp [lookup_error, lookupOk, fatalCount, List.countP_append]
  | ok reader =>
    by_cases hok : lookupOk c task (Except.ok reader) = true
    · rw [lookup_ok c reader l task _ _ (lookupScan_of_ok c reader l.logger task hok)]
      simp [hok, migrateCallOf, migrateCall, fatalCount, List.countP_append]
    · have hok1 : lookupOk c task (Except.ok reader) = false := by simpa using hok
      obtain ⟨lg1, ds, err, hscan, hcount⟩ := lookupScan_of_fail c reader l.logger task hok1
      rw [lookup_scan_error c reader l task lg1 ds err hscan]
      simp only [hok1, Bool.false_eq_true, false_implies, true_implies, true_and]
      have : fatalCount (lg1 ++ [LogLine.fatal err]) = fatalCount lg1 + 1 := by
        simp [fatalCount, List.countP_append]
      omega

/-! ### One action -/

theorem inFlightAll_append (ws1 ws2 : List Worker) :
    inFlightAll (ws1 ++ ws2) = inFlightAll ws1 ++ inFlightAll ws2 := by
  induction ws1 with
  | nil => rfl
  | cons w ws ih => simp [inFlightAll, ih]

theorem workers_split (ws : List Worker) (i : Nat) (w : Worker) (h : ws[i]? = some w) :
    ∃ pre post, ws = pre ++ w :: post ∧ pre.length = i ∧
      ∀ w1, ws.set i w1 = pre ++ w1 :: post := by
  induction ws generalizing i with
  | nil => simp at h
  | cons a rest ih =>
    cases i with
    | zero =>
      simp only [List.getElem?_cons_zero, Option.some.injEq] at h
      subst h
      exact ⟨[], rest, rfl, rfl, fun _ => rfl⟩
    | succ j =>
      simp only [List.getElem?_cons_succ] at h
      obtain ⟨pre, post, h1, h2, h3⟩ := ih j h
      refine ⟨a :: pre, post, by rw [h1]; rfl, by simp [h2], ?_⟩
      intro w1
      rw [List.set_cons_succ, h3 w1]
      rfl

/-- Replacing the state of one worker. -/
theorem worker_update_inv (ws : List Worker) (i : Nat) (w w1 : Worker)
    (h : ws[i]? = some w) :
    (inFlightAll (ws.set i w1)).length + (inFlight w).length =
      (inFlightAll ws).length + (inFlight w1).length ∧
    (ws.set i w1).length = ws.length ∧
    ((ws.set i w1).length ≤ 1 →
      inFlightAll ws = inFlight w ∧ inFlightAll (ws.set i w1) = inFlight w1) := by
  obtain ⟨pre, post, h1, _, h3⟩ := workers_split ws i w h
  refine ⟨?_, List.length_set _ _ _, ?_⟩
  · rw [h3 w1, h1]
    simp only [inFlightAll_append, inFlightAll, List.length_append]
    omega
  · intro hlen
    rw [h3 w1] at hlen ⊢
    rw [h1]
    simp only [List.length_append, List.length_cons] at hlen
    have hpre : pre = [] := List.length_eq_zero.1 (by omega)
    have hpost : post = [] := List.length_eq_zero.1 (by omega)
    subst hpre hpost
    simp [inFlightAll]

/-- What one action does to the counters, the queue, the sink and the log. -/
theorem step_inv (c : Codec) (l l1 : Lookuper) (e : Event) (h : step c l e = some l1) :
    l1.tasksQueued % uint64Mod = (l.tasksQueued + notifyCount [e]) % uint64Mod ∧
    (l.tasksQueued < uint64Mod → l1.tasksQueued < uint64Mod) ∧
    l.sending.length + notifyCount [e] = l1.sending.length + (sentTasks [e]).length ∧
    (inFlightAll l.workers).length + l.workChan.length + (sentTasks [e]).length =
      (stepHistory l e).length + (inFlightAll l1.workers).length + l1.workChan.length ∧
    l1.f.compensator = l.f.compensator ++ (stepHistory l e).filterMap (migrateCallOf c) ∧
    l1.tasksDone % uint64Mod = (l.tasksDone + okCount c (stepHistory l e)) % uint64Mod ∧
    (l.tasksDone < uint64Mod → l1.tasksDone < uint64Mod) ∧
    fatalCount l1.logger + okCount c (stepHistory l e) =
      fatalCount l.logger + (stepHistory l e).length ∧
    l.workers.length ≤ l1.workers.length ∧
    (l1.workers.length ≤ 1 →
      inFlightAll l.workers ++ l.workChan ++ sentTasks [e] =
        (stepHistory l e).map Prod.fst ++ inFlightAll l1.workers ++ l1.workChan) ∧
    (stepHistory l e).map Prod.snd = handedOut [e] := by
  have hM : 0 < uint64Mod := by unfold uint64Mod; norm_num
  cases e with
  | NotifyAdd docNum docID =>
    simp only [step, Option.some.injEq] at h
    subst h
    simp [notifyCount, sentTasks, stepHistory, okCount, handedOut, Nat.mod_lt _ hM]
  | NotifySend task =>
    simp only [step] at h
    split at h
    · rename_i hc
      simp only [Option.some.injEq] at h
      subst h
      have hlen := List.length_erase_of_mem hc.1
      have hpos : 0 < l.sending.length := List.length_pos_of_mem hc.1
      simp [notifyCount, sentTasks, stepHistory, okCount, handedOut, hlen]
      omega
    · simp at h
  | Start =>
    simp only [step, Option.some.injEq] at h
    subst h
    simp [notifyCount, sentTasks, stepHistory, okCount, handedOut, inFlightAll_append,
      inFlightAll, inFlight]
  | StopClose =>
    simp only [step] at h
    split at h
    · simp only [Option.some.injEq] at h
      subst h
      simp [notifyCount, sentTasks, stepHistory, okCount, handedOut]
    · simp at h
  | StopWait =>
    simp only [step] at h
    split at h
    · simp only [Option.some.injEq] at h
      subst h
      simp [notifyCount, sentTasks, stepHistory, okCount, handedOut]
    · simp at h
  | runQuit i =>
    simp only [step] at h
    split at h
    · rename_i hw
      split at h
      · simp only [Option.some.injEq] at h
        subst h
        obtain ⟨u1, u2, u3⟩ := worker_update_inv l.workers i _ Worker.exited hw
        simp only [inFlight, List.length_nil, Nat.add_zero] at u1 u3
        refine ⟨?_, ?_, ?_, ?_, ?_, ?_, ?_, ?_, ?_, ?_, ?_⟩
        · simp [notifyCount]
        · exact fun hlt => hlt
        · simp [notifyCount, sentTasks]
        · simp [sentTasks, stepHistory, u1]
        · simp [stepHistory]
        · simp [stepHistory, okCount]
        · exact fun hlt => hlt
        · simp [stepHistory, okCount, fatalCount, List.countP_append]
        · exact le_of_eq u2.symm
        · intro hlen
          rw [(u3 hlen).1, (u3 hlen).2]
          simp [stepHistory, sentTasks]
        · simp [stepHistory, handedOut]
      · simp at h
    · simp at h
  | runRecv i =>
    simp only [step] at h
    split at h
    · rename_i task rest hw hq
      simp only [Option.some.injEq] at h
      subst h
      obtain ⟨u1, u2, u3⟩ := worker_update_inv l.workers i _ (Worker.inLookup task) hw
      simp only [inFlight, List.length_nil, Nat.add_zero, List.length_singleton] at u1 u3
      refine ⟨?_, ?_, ?_, ?_, ?_, ?_, ?_, ?_, ?_, ?_, ?_⟩
      · simp [notifyCount]
      · exact fun hlt => hlt
      · simp [notifyCount, sentTasks]
      · simp only [sentTasks, stepHistory, hq, List.length_nil, List.length_cons]
        omega
      · simp [stepHistory]
      · simp [stepHistory, okCount]
      · exact fun hlt => hlt
      · simp [stepHistory, okCount]
      · exact le_of_eq u2.symm
      · intro hlen
        rw [(u3 hlen).1, (u3 hlen).2]
        simp [stepHistory, sentTasks, hq]
      · simp [stepHistory, handedOut]
    · rename_i hw hq
      split at h
      · simp only [Option.some.injEq] at h
        subst h
        obtain ⟨u1, u2, u3⟩ := worker_update_inv l.workers i _ Worker.exited hw
        simp only [inFlight, List.length_nil, Nat.add_zero] at u1 u3
        refine ⟨?_, ?_, ?_, ?_, ?_, ?_, ?_, ?_, ?_, ?_, ?_⟩
        · simp [notifyCount]
        · exact fun hlt => hlt
        · simp [notifyCount, sentTasks]
        · simp [sentTasks, stepHistory, u1]
        · simp [stepHistory]
        · simp [stepHistory, okCount]
        · exact fun hlt => hlt
        · simp [stepHistory, okCount, fatalCount, List.countP_append]
        · exact le_of_eq u2.symm
        · intro hlen
          rw [(u3 hlen).1, (u3 hlen).2]
          simp [stepHistory, sentTasks]
        · simp [stepHistory, handedOut]
      · simp at h
    · simp at h
  | runLookup i rd =>
    simp only [step] at h
    split at h
    · rename_i task hw
      simp only [Option.some.injEq] at h
      subst h
      obtain ⟨e1, _, _, _, e5, e6, _, eok, efail⟩ := lookup_effect c rd l task
      obtain ⟨u1, u2, u3⟩ := worker_update_inv l.workers i _ Worker.selecting hw
      simp only [inFlight, List.length_nil, Nat.add_zero, List.length_singleton] at u1 u3
      have hsh : stepHistory l (Event.runLookup i rd) = [(task, rd)] := by
        simp only [stepHistory, hw]
      have hfacts :
          (lookup c rd l task).f.compensator =
            l.f.compensator ++ List.filterMap (migrateCallOf c) [(task, rd)] ∧
          (lookup c rd l task).tasksDone % uint64Mod =
            (l.tasksDone + okCount c [(task, rd)]) % uint64Mod ∧
          (l.tasksDone < uint64Mod → (lookup c rd l task).tasksDone < uint64Mod) ∧
          fatalCount (lookup c rd l task).logger + okCount c [(task, rd)] =
            fatalCount l.logger + 1 := by
        by_cases hok : lookupOk c task rd = true
        · obtain ⟨f1, f2, f3⟩ := eok hok
          have hsome : (migrateCallOf c (task, rd)).toList =
              List.filterMap (migrateCallOf c) [(task, rd)] := by
            cases hm : migrateCallOf c (task, rd) <;> simp [List.filterMap_cons, hm]
          have hcnt : okCount c [(task, rd)] = 1 := by simp [okCount, hok]
          rw [f1, f2, f3, hsome, hcnt]
          exact ⟨rfl, Nat.mod_mod _ _, fun _ => Nat.mod_lt _ hM, rfl⟩
        · have hok1 : lookupOk c task rd = false := by simpa using hok
          obtain ⟨f1, f2, f3⟩ := efail hok1
          have hnone : List.filterMap (migrateCallOf c) [(task, rd)] = [] := by
            have : migrateCallOf c (task, rd) = none := by
              unfold migrateCallOf
              cases rd <;> simp [hok1]
            simp [List.filterMap_cons, this]
          have hcnt : okCount c [(task, rd)] = 0 := by simp [okCount, hok1]
          rw [f1, f2, f3, hnone, hcnt]
          exact ⟨by simp, rfl, fun hlt => hlt, rfl⟩
      obtain ⟨g1, g2, g3, g4⟩ := hfacts
      rw [hsh]
      refine ⟨?_, ?_, ?_, ?_, g1, g2, g3, g4, ?_, ?_, ?_⟩
      · simp [notifyCount, e5]
      · intro hlt
        show (lookup c rd l task).tasksQueued < uint64Mod
        rw [e5]
        exact hlt
      · simp [notifyCount, sentTasks, e6]
      · simp only [sentTasks, List.length_nil, List.length_singleton]
        show _ = 1 + (inFlightAll (l.workers.set i Worker.selecting)).length +
          (lookup c rd l task).workChan.length
        rw [e1]
        omega
      · exact le_of_eq u2.symm
      · intro hlen
        show inFlightAll l.workers ++ l.workChan ++ sentTasks [Event.runLookup i rd] =
          List.map Prod.fst [(task, rd)] ++ inFlightAll (l.workers.set i Worker.selecting) ++
            (lookup c rd l task).workChan
        rw [(u3 hlen).1, (u3 hlen).2, e1]
        simp [sentTasks]
      · simp [handedOut]
    · simp at h
  | closeWorkChan =>
    simp only [step] at h
    split at h
    · simp only [Option.some.injEq] at h
      subst h
      simp [notifyCount, sentTasks, stepHistory, okCount, handedOut]
    · simp at h

/-! ### Runs -/

theorem notifyCount_cons (e : Event) (es : List Event) :
    notifyCount (e :: es) = notifyCount [e] + notifyCount es := by
  cases e <;> simp [notifyCount, Nat.add_comm]

theorem sentTasks_cons (e : Event) (es : List Event) :
    sentTasks (e :: es) = sentTasks [e] ++ sentTasks es := by
  cases e <;> simp [sentTasks]

theorem handedOut_cons (e : Event) (es : List Event) :
    handedOut (e :: es) = handedOut [e] ++ handedOut es := by
  cases e <;> simp [handedOut]

theorem notifyCount_append (es1 es2 : List Event) :
    notifyCount (es1 ++ es2) = notifyCount es1 + notifyCount es2 := by
  induction es1 with
  | nil => simp [notifyCount]
  | cons e es ih =>
    rw [List.cons_append, notifyCount_cons, ih, notifyCount_cons e es]
    omega

theorem exec_cons (c : Codec) (l l1 : Lookuper) (e : Event) (es : List Event)
    (h : step c l e = some l1) : exec c l (e :: es) = exec c l1 es := by
  simp only [exec, h]

theorem exec_cons_some (c : Codec) (l s : Lookuper) (e : Event) (es : List Event)
    (h : exec c l (e :: es) = some s) :
    ∃ l1, step c l e = some l1 ∧ exec c l1 es = some s := by
  cases hs : step c l e with
  | none => simp [exec, hs] at h
  | some l1 => exact ⟨l1, rfl, by simpa [exec, hs] using h⟩

theorem exec_append (c : Codec) (l s : Lookuper) (es1 es2 : List Event)
    (h : exec c l es1 = some s) : exec c l (es1 ++ es2) = exec c s es2 := by
  induction es1 generalizing l with
  | nil =>
    simp only [exec, Option.some.injEq] at h
    subst h
    rfl
  | cons e es ih =>
    obtain ⟨l1, h1, h2⟩ := exec_cons_some c l s e es h
    rw [List.cons_append, exec_cons c l l1 e _ h1]
    exact ih l1 h2

theorem history_cons (c : Codec) (l l1 : Lookuper) (e : Event) (es : List Event)
    (h : step c l e = some l1) :
    history c l (e :: es) = stepHistory l e ++ history c l1 es := by
  simp only [history, h]

theorem history_append (c : Codec) (l s : Lookuper) (es1 es2 : List Event)
    (h : exec c l es1 = some s) :
    history c l (es1 ++ es2) = history c l es1 ++ history c s es2 := by
  induction es1 generalizing l with
  | nil =>
    simp only [exec, Option.some.injEq] at h
    subst h
    simp [history]
  | cons e es ih =>
    obtain ⟨l1, h1, h2⟩ := exec_cons_some c l s e es h
    rw [List.cons_append, history_cons c l l1 e _ h1, history_cons c l l1 e _ h1, ih l1 h2,
      List.append_assoc]

theorem okCount_append (c : Codec) (h1 h2 : List (lookupTask × Except String KVReader)) :
    okCount c (h1 ++ h2) = okCount c h1 + okCount c h2 := by
  simp [okCount, List.countP_append]

/-- What a run does to the counters, the queue, the sink and the log. -/
theorem exec_inv (c : Codec) (l s : Lookuper) (evs : List Event)
    (h : exec c l evs = some s) :
    s.tasksQueued % uint64Mod = (l.tasksQueued + notifyCount evs) % uint64Mod ∧
    (l.tasksQueued < uint64Mod → s.tasksQueued < uint64Mod) ∧
    l.sending.length + notifyCount evs = s.sending.length + (sentTasks evs).length ∧
    (inFlightAll l.workers).length + l.workChan.length + (sentTasks evs).length =
      (history c l evs).length + (inFlightAll s.workers).length + s.workChan.length ∧
    s.f.compensator = l.f.compensator ++ (history c l evs).filterMap (migrateCallOf c) ∧
    s.tasksDone % uint64Mod = (l.tasksDone + okCount c (history c l evs)) % uint64Mod ∧
    (l.tasksDone < uint64Mod → s.tasksDone < uint64Mod) ∧
    fatalCount s.logger + okCount c (history c l evs) =
      fatalCount l.logger + (history c l evs).length ∧
    l.workers.length ≤ s.workers.length ∧
    (s.workers.length ≤ 1 →
      inFlightAll l.workers ++ l.workChan ++ sentTasks evs =
        (history c l evs).map Prod.fst ++ inFlightAll s.workers ++ s.workChan) ∧
    (history c l evs).map Prod.snd = handedOut evs := by
  induction evs generalizing l with
  | nil =>
    simp only [exec, Option.some.injEq] at h
    subst h
    simp [notifyCount, sentTasks, history, okCount, handedOut]
  | cons e es ih =>
    obtain ⟨l1, h1, h2⟩ := exec_cons_some c l s e es h
    obtain ⟨a1, a2, a3, a4, a5, a6, a7, a8, a9, a10, a11⟩ := step_inv c l l1 e h1
    obtain ⟨b1, b2, b3, b4, b5, b6, b7, b8, b9, b10, b11⟩ := ih l1 h2
    rw [history_cons c l l1 e es h1, notifyCount_cons, sentTasks_cons, okCount_append,
      handedOut_cons]
    simp only [uint64Mod] at *
    refine ⟨by omega, fun hlt => b2 (a2 hlt), ?_, ?_, ?_, by omega, fun hlt => b7 (a7 hlt),
      ?_, by omega, ?_, ?_⟩
    · simp only [List.length_append]
      omega
    · simp only [List.length_append]
      omega
    · rw [b5, a5, List.filterMap_append, List.append_assoc]
    · simp only [List.length_append]
      omega
    · intro hlen
      have hfifo1 := a10 (by omega)
      have hfifo2 := b10 hlen
      rw [← List.append_assoc, hfifo1, List.map_append]
      simp only [List.append_assoc]
      rw [← List.append_assoc (inFlightAll l1.workers), hfifo2]
      simp only [List.append_assoc]
    · rw [List.map_append, a11, b11]

/-- What a run from `NewLookuper` has done. -/
theorem exec_new_inv (c : Codec) (f : Firestorm) (s : Lookuper) (evs : List Event)
    (h : exec c (NewLookuper f) evs = some s) :
    s.tasksQueued = notifyCount evs % 2 ^ 64 ∧
    s.tasksDone = okCount c (history c (NewLookuper f) evs) % 2 ^ 64 ∧
    notifyCount evs = s.sending.length + (sentTasks evs).length ∧
    (sentTasks evs).length =
      (history c (NewLookuper f) evs).length + (inFlightAll s.workers).length +
        s.workChan.length ∧
    fatalCount s.logger + okCount c (history c (NewLookuper f) evs) =
      (history c (NewLookuper f) evs).length := by
  obtain ⟨b1, b2, b3, b4, _, b6, b7, b8, _, _, _⟩ := exec_inv c (NewLookuper f) s evs h
  have e1 : (NewLookuper f).tasksQueued = 0 := rfl
  have e2 : (NewLookuper f).tasksDone = 0 := rfl
  have e3 : (NewLookuper f).sending = [] := rfl
  have e4 : (NewLookuper f).workChan = [] := rfl
  have e5 : inFlightAll (NewLookuper f).workers = [] := rfl
  have e6 : (NewLookuper f).logger = [] := rfl
  rw [e1] at b1 b2
  rw [e2] at b6 b7
  rw [e3] at b3
  rw [e4, e5] at b4
  rw [e6] at b8
  simp only [List.length_nil, Nat.zero_add] at b3 b4
  simp only [fatalCount, List.countP_nil, Nat.zero_add] at b8
  simp only [uint64Mod, Nat.zero_add] at b1 b2 b6 b7
  have hq := b2 (by norm_num)
  have hd := b7 (by norm_num)
  refine ⟨by omega, by omega, b3, by omega, ?_⟩
  simp only [fatalCount]
  exact b8

/-! ### The obsolete list and the live document counter (`lookup`, lines 107-121) -/

/-- C1: when the scan of `lookup` ends without error having observed `docNums` (which
are the sequence numbers decoded under the task's own prefix, in scan order), the one call
that `lookup` makes to `Migrate` carries the whole of `docNums` when the target sequence
is 0, and otherwise exactly the observed values strictly below the target, in scan order
and with their multiplicities; no observed value at or above a non-zero target is in
it; and when the target is positive and all observed values are below it, the obsolete
list is the full observed list. -/
theorem C1_obsolete_list (c : Codec) (reader : KVReader) (l : Lookuper) (task : lookupTask)
    (lg : List LogLine) (docNums : DocNumberList)
    (h : lookupScan c reader l.logger task = ((lg, docNums), none)) :
    docNums = scannedDocNums c reader task.docID ∧
    (lookup c (Except.ok reader) l task).f.compensator =
      l.f.compensator ++ [MigrateCall.mk task.docID task.docNum
        (if task.docNum = 0 then docNums
         else docNums.filter (fun d => decide (d < task.docNum)))] ∧
    (task.docNum ≠ 0 → ∀ d ∈ docNums, task.docNum ≤ d →
      d ∉ docNums.filter (fun d => decide (d < task.docNum))) ∧
    (0 < task.docNum → (∀ d ∈ docNums, d < task.docNum) →
      (lookup c (Except.ok reader) l task).f.compensator =
        l.f.compensator ++ [MigrateCall.mk task.docID task.docNum docNums]) := by
  refine ⟨lookupScan_none c reader l.logger task lg docNums h, ?_, ?_, ?_⟩
  · rw [lookup_ok c reader l task lg docNums h]
    by_cases h0 : task.docNum = 0
    · simp [h0, oldDocNumsLoop_zero task docNums h0]
    · simp [h0, oldDocNumsLoop_pos task docNums h0]
  · intro _ d _ hle hmem
    have := (List.mem_filter.1 hmem).2
    simp only [decide_eq_true_eq] at this
    omega
  · intro hpos hall
    rw [lookup_ok c reader l task lg docNums h]
    have h0 : task.docNum ≠ 0 := by omega
    have hf : docNums.filter (fun d => decide (d < task.docNum)) = docNums :=
      List.filter_eq_self.2 (fun d hd => by simpa using hall d hd)
    simp [oldDocNumsLoop_pos task docNums h0, hf]

/-- C1 at a concrete input: rows at 3 and 5, target 7. -/
theorem C1_obsolete_list_witness :
    lookupScan demoCodec demoReader (demoLookuper 0).logger (lookupTask.mk [1] 7) =
      (([LogLine.lookuperPrefix [116, 0, 0, 255, 1, 255],
         LogLine.seesKey [116, 0, 0, 255, 1, 255, 3],
         LogLine.seesKey [116, 0, 0, 255, 1, 255, 5]], [3, 5]), none) ∧
    (lookup demoCodec (Except.ok demoReader) (demoLookuper 0) (lookupTask.mk [1] 7)).f.compensator
      = [MigrateCall.mk [1] 7 [3, 5]] :=
  ⟨by decide,
   (C1_obsolete_list demoCodec demoReader (demoLookuper 0) (lookupTask.mk [1] 7) _ [3, 5] rfl).2.2.2 (by decide) (by decide)⟩

/-- C2 (as amended): the task's own target sequence is in the obsolete list that `lookup`
passes to `Migrate` exactly when the target is 0 and 0 is among the observed sequence
numbers; so it is never there when the target is not 0, or when no observed sequence
number is 0. -/
theorem C2_self_exclusion (c : Codec) (reader : KVReader) (l : Lookuper) (task : lookupTask)
    (lg : List LogLine) (docNums : DocNumberList)
    (h : lookupScan c reader l.logger task = ((lg, docNums), none)) :
    (lookup c (Except.ok reader) l task).f.compensator =
      l.f.compensator ++
        [MigrateCall.mk task.docID task.docNum (oldDocNumsLoop task docNums [])] ∧
    (task.docNum ∈ oldDocNumsLoop task docNums [] ↔ task.docNum = 0 ∧ 0 ∈ docNums) ∧
    (task.docNum ≠ 0 ∨ 0 ∉ docNums → task.docNum ∉ oldDocNumsLoop task docNums []) := by
  have key : task.docNum ∈ oldDocNumsLoop task docNums [] ↔ task.docNum = 0 ∧ 0 ∈ docNums := by
    by_cases h0 : task.docNum = 0
    · rw [oldDocNumsLoop_zero task docNums h0]
      simp [h0]
    · rw [oldDocNumsLoop_pos task docNums h0]
      simp [h0]
  refine ⟨by rw [lookup_ok c reader l task lg docNums h], key, ?_⟩
  intro hor hmem
  obtain ⟨h0, hin⟩ := key.1 hmem
  rcases hor with hne | hnot
  · exact hne h0
  · exact hnot hin

/-- C2 (as amended) at a concrete input: a row at 7 is not obsolete for target 7. -/
theorem C2_self_exclusion_witness :
    (lookup demoCodec (Except.ok
        (KVReader.mk [([116, 0, 0, 255, 1, 255, 3], []), ([116, 0, 0, 255, 1, 255, 7], [])]))
      (demoLookuper 0) (lookupTask.mk [1] 7)).f.compensator = [MigrateCall.mk [1] 7 [3]] ∧
    (7 : Nat) ∉ oldDocNumsLoop (lookupTask.mk [1] 7) [3, 7] [] :=
  ⟨by decide,
   (C2_self_exclusion demoCodec
      (KVReader.mk [([116, 0, 0, 255, 1, 255, 3], []), ([116, 0, 0, 255, 1, 255, 7], [])])
      (demoLookuper 0) (lookupTask.mk [1] 7) _ [3, 7] rfl).2.2 (Or.inl (by decide))⟩

/-- C2 fails as stated: for the deletion task (target 0) of a document whose scan
observes a row at sequence number 0, the obsolete list passed to `Migrate` is `[0]`, which
holds the task's own target sequence. -/
theorem C2_self_exclusion_counterexample :
    (lookup demoCodec (Except.ok demoReader) (demoLookuper 5) (lookupTask.mk [4] 0)).f.compensator
      = [MigrateCall.mk [4] 0 [0]] ∧
    (lookupTask.mk [4] 0).docNum ∈ (MigrateCall.mk [4] 0 [0]).oldDocNums := by
  decide

/-- C3: for a task whose scan ends without error, the live document counter after
`lookup` is `old + 1` modulo `2 ^ 64` when the obsolete list is empty and the target is
not 0, `old - 1` modulo `2 ^ 64` when the obsolete list is not empty and the target is 0,
and the old value in the two other cases. -/
theorem C3_counter_update (c : Codec) (reader : KVReader) (l : Lookuper) (task : lookupTask)
    (lg : List LogLine) (docNums : DocNumberList)
    (h : lookupScan c reader l.logger task = ((lg, docNums), none)) :
    (lookup c (Except.ok reader) l task).f.compensator =
      l.f.compensator ++
        [MigrateCall.mk task.docID task.docNum (oldDocNumsLoop task docNums [])] ∧
    (oldDocNumsLoop task docNums [] = [] → task.docNum ≠ 0 →
      (lookup c (Except.ok reader) l task).f.docCount = (l.f.docCount + 1) % 2 ^ 64) ∧
    (oldDocNumsLoop task docNums [] ≠ [] → task.docNum = 0 →
      (lookup c (Except.ok reader) l task).f.docCount = (l.f.docCount + (2 ^ 64 - 1)) % 2 ^ 64 ∧
      (((lookup c (Except.ok reader) l task).f.docCount : Int) =
        ((l.f.docCount : Int) - 1) % 2 ^ 64)) ∧
    (oldDocNumsLoop task docNums [] ≠ [] → task.docNum ≠ 0 →
      (lookup c (Except.ok reader) l task).f.docCount = l.f.docCount) ∧
    (oldDocNumsLoop task docNums [] = [] → task.docNum = 0 →
      (lookup c (Except.ok reader) l task).f.docCount = l.f.docCount) := by
  rw [lookup_ok c reader l task lg docNums h]
  refine ⟨rfl, ?_, ?_, ?_, ?_⟩
  · intro he hn
    simp [updateDocCount, he, hn, uint64Mod]
  · intro hne h0
    have hlen : 0 < (oldDocNumsLoop task docNums []).length := List.length_pos.2 hne
    have hv : updateDocCount task (oldDocNumsLoop task docNums []) l.f.docCount =
        (l.f.docCount + (2 ^ 64 - 1)) % 2 ^ 64 := by
      simp [updateDocCount, h0, hlen, uint64Mod, Nat.ne_of_gt hlen]
    refine ⟨hv, ?_⟩
    show ((updateDocCount task (oldDocNumsLoop task docNums []) l.f.docCount : Nat) : Int) = _
    rw [hv]
    norm_num
    omega
  · intro hne hn
    have hlen : 0 < (oldDocNumsLoop task docNums []).length := List.length_pos.2 hne
    simp [updateDocCount, hn, Nat.ne_of_gt hlen]
  · intro he h0
    simp [updateDocCount, he, h0]

/-- C3 at a concrete input: the insert of a document with no row moves the counter
from 4 to 5. -/
theorem C3_counter_update_witness :
    (lookup demoCodec (Except.ok demoReader) (demoLookuper 4) (lookupTask.mk [3] 9)).f.docCount
      = (4 + 1) % 2 ^ 64 :=
  (C3_counter_update demoCodec demoReader (demoLookuper 4) (lookupTask.mk [3] 9) _ [] rfl).2.1 (by decide) (by decide)

/-- C4 (as amended): for a deletion task (target 0) whose scan observes a non-empty
list, the obsolete list passed to `Migrate` is the whole observed list, and the counter
after `lookup` is the prior value minus one modulo `2 ^ 64`: exactly one less than a prior
value above 0, and `2 ^ 64 - 1` after a prior value of 0. -/
theorem C4_delete_decrements (c : Codec) (reader : KVReader) (l : Lookuper)
    (task : lookupTask) (lg : List LogLine) (docNums : DocNumberList)
    (h : lookupScan c reader l.logger task = ((lg, docNums), none))
    (htarget : task.docNum = 0) (hne : docNums ≠ []) (hu64 : l.f.docCount < 2 ^ 64) :
    (lookup c (Except.ok reader) l task).f.compensator =
      l.f.compensator ++ [MigrateCall.mk task.docID task.docNum docNums] ∧
    (lookup c (Except.ok reader) l task).f.docCount = (l.f.docCount + (2 ^ 64 - 1)) % 2 ^ 64 ∧
    (0 < l.f.docCount → (lookup c (Except.ok reader) l task).f.docCount + 1 = l.f.docCount) ∧
    (l.f.docCount = 0 → (lookup c (Except.ok reader) l task).f.docCount = 2 ^ 64 - 1) := by
  rw [lookup_ok c reader l task lg docNums h, oldDocNumsLoop_zero task docNums htarget]
  have hlen : 0 < docNums.length := List.length_pos.2 hne
  have hv : updateDocCount task docNums l.f.docCount = (l.f.docCount + (2 ^ 64 - 1)) % 2 ^ 64 := by
    simp [updateDocCount, htarget, hlen, uint64Mod, Nat.ne_of_gt hlen]
  refine ⟨rfl, hv, ?_, ?_⟩
  · intro hpos
    show updateDocCount task docNums l.f.docCount + 1 = l.f.docCount
    rw [hv]
    omega
  · intro hz
    show updateDocCount task docNums l.f.docCount = 2 ^ 64 - 1
    rw [hv, hz]
    norm_num

/-- C4 (as amended) at a concrete input: the deletion of the document with a row at 9
moves the counter from 4 to 3 and reports `[9]`. -/
theorem C4_delete_decrements_witness :
    (lookup demoCodec (Except.ok demoReader) (demoLookuper 4) (lookupTask.mk [2] 0)).f.compensator
      = [MigrateCall.mk [2] 0 [9]] ∧
    (lookup demoCodec (Except.ok demoReader) (demoLookuper 4) (lookupTask.mk [2] 0)).f.docCount + 1
      = 4 :=
  ⟨(C4_delete_decrements demoCodec demoReader (demoLookuper 4) (lookupTask.mk [2] 0) _ [9] rfl
      rfl (by decide) (by decide)).1,
   (C4_delete_decrements demoCodec demoReader (demoLookuper 4) (lookupTask.mk [2] 0) _ [9] rfl
      rfl (by decide) (by decide)).2.2.1 (by decide)⟩

/-- C4 fails as stated: with a prior counter value of 0, the deletion of a document with
a row at 9 leaves the counter at `2 ^ 64 - 1`, which is not one less than 0. -/
theorem C4_delete_decrements_counterexample :
    lookupScan demoCodec demoReader (demoLookuper 0).logger (lookupTask.mk [2] 0) =
      (([LogLine.lookuperPrefix [116, 0, 0, 255, 2, 255],
         LogLine.seesKey [116, 0, 0, 255, 2, 255, 9]], [9]), none) ∧
    (lookup demoCodec (Except.ok demoReader) (demoLookuper 0) (lookupTask.mk [2] 0)).f.docCount
      = 18446744073709551615 ∧
    ¬ ((lookup demoCodec (Except.ok demoReader) (demoLookuper 0)
        (lookupTask.mk [2] 0)).f.docCount + 1 = (demoLookuper 0).f.docCount) := by
  decide

/-! ### Failed tasks -/

theorem getElem?_set_same (ws : List Worker) (i : Nat) (w w1 : Worker)
    (h : ws[i]? = some w) : (ws.set i w1)[i]? = some w1 := by
  induction ws generalizing i with
  | nil => simp at h
  | cons a rest ih =>
    cases i with
    | zero => simp
    | succ j =>
      simp only [List.getElem?_cons_succ] at h
      simpa using ih j h

theorem getElem?_set_other (ws : List Worker) (i j : Nat) (w1 : Worker) (hne : i ≠ j) :
    (ws.set i w1)[j]? = ws[j]? := by
  induction ws generalizing i j with
  | nil => simp
  | cons a rest ih =>
    cases i with
    | zero =>
      cases j with
      | zero => exact absurd rfl hne
      | succ k => simp
    | succ i1 =>
      cases j with
      | zero => simp
      | succ k =>
        have hne1 : i1 ≠ k := fun hh => hne (by rw [hh])
        simpa using ih i1 k hne1

/-- C5: a failed task has no reconciliation effect.  If the reader is not acquired, or if
a row visited by the scan fails to decode (the scan then stops at the first such row: the
rows after it are not visited), `lookup` makes no call to `Migrate`, leaves the live
document counter and `tasksDone` unchanged and logs one fatal line; and the worker that
ran it is back at its `select`, from where it receives the next task of the queue. -/
theorem C5_failed_task (c : Codec) (l : Lookuper) (task : lookupTask) :
    (∀ err, (lookup c (Except.error err) l task).f = l.f ∧
      (lookup c (Except.error err) l task).tasksDone = l.tasksDone ∧
      (lookup c (Except.error err) l task).logger = l.logger ++ [LogLine.fatal err]) ∧
    (∀ reader pre kv post err,
      matchingRows reader (c.TermFreqPrefixFieldTermDocId 0 [] task.docID) = pre ++ kv :: post →
      (∀ kv1 ∈ pre, decodes c kv1 = true) →
      c.NewTermFreqRowKV kv.1 kv.2 = Except.error err →
      (lookup c (Except.ok reader) l task).f = l.f ∧
      (lookup c (Except.ok reader) l task).tasksDone = l.tasksDone ∧
      (lookup c (Except.ok reader) l task).logger =
        l.logger ++ [LogLine.lookuperPrefix (c.TermFreqPrefixFieldTermDocId 0 [] task.docID)] ++
          pre.map (fun kv1 => LogLine.seesKey kv1.1) ++
          [LogLine.seesKey kv.1, LogLine.fatal err]) ∧
    (∀ rd i, lookupOk c task rd = false → l.workers[i]? = some (Worker.inLookup task) →
      ∃ s, step c l (Event.runLookup i rd) = some s ∧
        s.f = l.f ∧ s.tasksDone = l.tasksDone ∧ fatalCount s.logger = fatalCount l.logger + 1 ∧
        s.workers[i]? = some Worker.selecting ∧ s.workChan = l.workChan ∧
        ∀ next rest, l.workChan = next :: rest →
          ∃ s2, step c s (Event.runRecv i) = some s2 ∧
            s2.workers[i]? = some (Worker.inLookup next) ∧ s2.workChan = rest ∧
            s2.f = l.f) := by
  refine ⟨?_, ?_, ?_⟩
  · intro err
    simp [lookup_error]
  · intro reader pre kv post err hrows hpre hkv
    have hpre1 : ∀ kv1 ∈ pre, ∃ tfk, c.NewTermFreqRowKV kv1.1 kv1.2 = Except.ok tfk :=
      fun kv1 hkv1 => (decodes_true c kv1).1 (hpre kv1 hkv1)
    rw [lookup_scan_error c reader l task _ _ err
      (lookupScan_first_error c reader l.logger task pre post kv err hrows hpre1 hkv)]
    simp
  · intro rd i hfail hw
    obtain ⟨e1, _, _, _, _, _, _, _, efail⟩ := lookup_effect c rd l task
    obtain ⟨f1, f2, f3⟩ := efail hfail
    have hsel : (l.workers.set i Worker.selecting)[i]? = some Worker.selecting :=
      getElem?_set_same l.workers i _ _ hw
    refine ⟨{ lookup c rd l task with workers := l.workers.set i Worker.selecting },
      ?_, f1, f2, f3, hsel, e1, ?_⟩
    · simp only [step, hw]
    · intro next rest hq
      refine ⟨{ lookup c rd l task with
          workChan := rest,
          workers := (l.workers.set i Worker.selecting).set i (Worker.inLookup next) },
        ?_, getElem?_set_same _ i _ _ hsel, rfl, f1⟩
      have hq1 : (lookup c rd l task).workChan = next :: rest := by rw [e1, hq]
      simp only [step, hsel, hq1]

/-- C5 at a concrete input: the scan of document `[7]` stops at its corrupt second row
(the third row is not visited), and a reader error leaves the state as it was. -/
theorem C5_failed_task_witness :
    (lookup demoCodec (Except.ok demoReader) (demoLookuper 4) (lookupTask.mk [7] 9)).f =
      (demoLookuper 4).f ∧
    (lookup demoCodec (Except.ok demoReader) (demoLookuper 4) (lookupTask.mk [7] 9)).logger =
      [LogLine.lookuperPrefix [116, 0, 0, 255, 7, 255],
       LogLine.seesKey [116, 0, 0, 255, 7, 255, 6],
       LogLine.seesKey [116, 0, 0, 255, 7, 255, 254],
       LogLine.fatal "corrupt row"] :=
  have h := (C5_failed_task demoCodec (demoLookuper 4) (lookupTask.mk [7] 9)).2.1 demoReader
    [([116, 0, 0, 255, 7, 255, 6], [])] ([116, 0, 0, 255, 7, 255, 254], [])
    [([116, 0, 0, 255, 7, 255, 8], [])] "corrupt row" (by decide) (by decide) rfl
  ⟨h.1, h.2.2⟩

/-! ### FIFO processing -/

theorem history_all_ok (c : Codec) (hist : List (lookupTask × Except String KVReader))
    (h : ∀ p ∈ hist, lookupOk c p.1 p.2 = true) :
    ∃ readers : List KVReader, hist.map Prod.snd = readers.map Except.ok ∧
      readers.length = hist.length ∧
      hist.filterMap (migrateCallOf c) =
        List.zipWith (migrateCall c) (hist.map Prod.fst) readers := by
  induction hist with
  | nil => exact ⟨[], rfl, rfl, rfl⟩
  | cons p rest ih =>
    obtain ⟨readers, h0, h1, h2⟩ := ih (fun q hq => h q (List.mem_cons_of_mem _ hq))
    have hp := h p (List.mem_cons_self _ _)
    obtain ⟨task, rd⟩ := p
    cases rd with
    | error err => simp [lookupOk] at hp
    | ok reader =>
      refine ⟨reader :: readers, by simp [h0], by simp [h1], ?_⟩
      have hm : migrateCallOf c (task, Except.ok reader) = some (migrateCall c task reader) := by
        simp only [migrateCallOf]
        rw [if_pos hp]
      rw [List.filterMap_cons_some hm, h2]
      rfl

theorem mem_scannedDocNums (c : Codec) (reader : KVReader) (docID : Bytes) (d : Nat)
    (h : d ∈ scannedDocNums c reader docID) :
    ∃ kv ∈ reader.rows, (c.TermFreqPrefixFieldTermDocId 0 [] docID).isPrefixOf kv.1 = true ∧
      ∃ tfk, c.NewTermFreqRowKV kv.1 kv.2 = Except.ok tfk ∧ tfk.DocNum = d := by
  unfold scannedDocNums at h
  obtain ⟨kv, hkv, hdec⟩ := List.mem_filterMap.1 h
  have hrow := List.mem_filter.1 hkv
  refine ⟨kv, hrow.1, hrow.2, ?_⟩
  cases hd : c.NewTermFreqRowKV kv.1 kv.2 with
  | error err => simp [hd] at hdec
  | ok tfk =>
    simp only [hd, Option.some.injEq] at hdec
    exact ⟨tfk, rfl, hdec⟩

theorem mem_oldDocNumsLoop (task : lookupTask) (docNums : DocNumberList) (d : Nat)
    (h : d ∈ oldDocNumsLoop task docNums []) : d ∈ docNums := by
  rw [oldDocNumsLoop_eq] at h
  simp only [List.nil_append] at h
  exact (List.mem_filter.1 h).1

/-- C6 (as amended): when the tasks admitted by `Notify` to the work queue are `tasks`,
in that order, and a single worker has consumed them all without a reader or decode
failure, `Migrate` has been called exactly once per task, in the order of submission.
The call for the i-th task carries its own `docID` and `docNum`, and its obsolete list
is computed, by the loop of `lookup`, from the sequence numbers of the rows whose key
begins with that task's own prefix in the snapshot that the store handed out to the i-th
`lookup` of the run: every value in it was decoded from such a row.  Hence no value of
another document is in it provided that, in that snapshot, every row whose key begins
with the prefix is a row of the document itself (whatever the attribution `docOf` of rows
to documents); `lookup` does not check that, and distinct identifiers do not ensure it. -/
theorem C6_fifo_migrate (c : Codec) (f : Firestorm) (tasks : List lookupTask)
    (evs : List Event) (s : Lookuper)
    (hrun : exec c (NewLookuper f) evs = some s)
    (hsent : sentTasks evs = tasks)
    (hsingle : s.workers.length ≤ 1)
    (hqueue : s.workChan = []) (hworker : inFlightAll s.workers = [])
    (hnofail : fatalCount s.logger = 0) :
    ∃ readers : List KVReader,
      handedOut evs = readers.map Except.ok ∧
      readers.length = tasks.length ∧
      s.f.compensator = f.compensator ++ List.zipWith (migrateCall c) tasks readers ∧
      s.f.compensator.length = f.compensator.length + tasks.length ∧
      ∀ p ∈ tasks.zip readers,
        (migrateCall c p.1 p.2).docID = p.1.docID ∧
        (migrateCall c p.1 p.2).docNum = p.1.docNum ∧
        (migrateCall c p.1 p.2).oldDocNums =
          oldDocNumsLoop p.1 (scannedDocNums c p.2 p.1.docID) [] ∧
        (∀ d ∈ (migrateCall c p.1 p.2).oldDocNums,
          ∃ kv ∈ p.2.rows,
            (c.TermFreqPrefixFieldTermDocId 0 [] p.1.docID).isPrefixOf kv.1 = true ∧
            ∃ tfk, c.NewTermFreqRowKV kv.1 kv.2 = Except.ok tfk ∧ tfk.DocNum = d) ∧
        (∀ docOf : Bytes × Bytes → Bytes,
          (∀ kv ∈ p.2.rows,
            (c.TermFreqPrefixFieldTermDocId 0 [] p.1.docID).isPrefixOf kv.1 = true →
            docOf kv = p.1.docID) →
          ∀ d ∈ (migrateCall c p.1 p.2).oldDocNums,
            ∃ kv ∈ p.2.rows, docOf kv = p.1.docID ∧
              ∃ tfk, c.NewTermFreqRowKV kv.1 kv.2 = Except.ok tfk ∧ tfk.DocNum = d) := by
  obtain ⟨_, _, _, _, b5, _, _, b8, _, b10, b11⟩ := exec_inv c (NewLookuper f) s evs hrun
  have hfifo : (history c (NewLookuper f) evs).map Prod.fst = tasks := by
    have := b10 hsingle
    rw [hqueue, hworker, hsent] at this
    simpa [NewLookuper, inFlightAll] using this.symm
  have hcount : okCount c (history c (NewLookuper f) evs) =
      (history c (NewLookuper f) evs).length := by
    rw [hnofail] at b8
    simpa [NewLookuper, fatalCount] using b8
  have hall : ∀ p ∈ history c (NewLookuper f) evs, lookupOk c p.1 p.2 = true := by
    intro p hp
    exact List.countP_eq_length.1 hcount p hp
  obtain ⟨readers, h0, h1, h2⟩ := history_all_ok c _ hall
  rw [hfifo] at h2
  rw [b11] at h0
  have hlen : readers.length = tasks.length := by
    rw [h1, ← hfifo, List.length_map]
  have hmem : ∀ p ∈ tasks.zip readers, ∀ d ∈ (migrateCall c p.1 p.2).oldDocNums,
      ∃ kv ∈ p.2.rows,
        (c.TermFreqPrefixFieldTermDocId 0 [] p.1.docID).isPrefixOf kv.1 = true ∧
        ∃ tfk, c.NewTermFreqRowKV kv.1 kv.2 = Except.ok tfk ∧ tfk.DocNum = d := by
    intro p _ d hd
    exact mem_scannedDocNums c p.2 p.1.docID d (mem_oldDocNumsLoop p.1 _ d hd)
  refine ⟨readers, h0, hlen, ?_, ?_, ?_⟩
  · rw [b5, h2]
    rfl
  · rw [b5, h2]
    simp [NewLookuper, hlen]
  · intro p hp
    refine ⟨rfl, rfl, rfl, hmem p hp, ?_⟩
    intro docOf hsep d hd
    obtain ⟨kv, hkv, hpfx, hdec⟩ := hmem p hp d hd
    exact ⟨kv, hkv, hsep kv hkv hpfx, hdec⟩

/-- C6 (as amended) at a concrete input: two tasks, for documents `[1]` and `[2]`, are
migrated in the order of their submission, each from the snapshot handed out for it and
with the rows under its own prefix. -/
theorem C6_fifo_migrate_witness :
    exec demoCodec (demoLookuper 4) demoRun = some demoRunState ∧
    ∃ readers : List KVReader,
      handedOut demoRun = readers.map Except.ok ∧
      demoRunState.f.compensator =
        List.zipWith (migrateCall demoCodec) [lookupTask.mk [1] 7, lookupTask.mk [2] 0]
          readers :=
  ⟨by decide,
   (C6_fifo_migrate demoCodec (Firestorm.mk 4 []) [lookupTask.mk [1] 7, lookupTask.mk [2] 0]
      demoRun demoRunState (by decide) rfl (by decide) rfl rfl rfl).elim
    (fun readers h => ⟨readers, h.1, h.2.2.1⟩)⟩

/-- C6 fails as stated: the tasks for the distinct identifiers `[1]` and `[1, 255, 2]`
are submitted and processed by one worker without failure.  The key of the row of
document `[1, 255, 2]` (its own prefix followed by its sequence number 5) begins with
the prefix of document `[1]`, so the scan for `[1]` visits both rows, and the call of
`Migrate` for `[1]` carries the sequence number 5 observed for the other document. -/
theorem C6_fifo_migrate_counterexample :
    sentTasks demoLeakRun = [lookupTask.mk [1] 7, lookupTask.mk [1, 255, 2] 7] ∧
    ([1] : Bytes) ≠ [1, 255, 2] ∧
    demoLeakReader.rows =
      [ (demoCodec.TermFreqPrefixFieldTermDocId 0 [] [1] ++ [3], []),
        (demoCodec.TermFreqPrefixFieldTermDocId 0 [] [1, 255, 2] ++ [5], []) ] ∧
    matchingRows demoLeakReader (demoCodec.TermFreqPrefixFieldTermDocId 0 [] [1]) =
      demoLeakReader.rows ∧
    (exec demoCodec (demoLookuper 4) demoLeakRun).map
        (fun s => (s.f.compensator, s.workChan, s.workers, fatalCount s.logger)) =
      some ([MigrateCall.mk [1] 7 [3, 5], MigrateCall.mk [1, 255, 2] 7 [5]], [],
        [Worker.selecting], 0) ∧
    (5 : Nat) ∈ (MigrateCall.mk [1] 7 [3, 5]).oldDocNums := by
  decide

/-! ### Stop -/

theorem mem_of_worker_at (ws : List Worker) (i : Nat) (w : Worker) (h : ws[i]? = some w) :
    w ∈ ws := by
  obtain ⟨pre, post, h1, _, _⟩ := workers_split ws i w h
  rw [h1]
  simp

theorem step_quit_closed (c : Codec) (l l1 : Lookuper) (e : Event) (h : step c l e = some l1)
    (hq : l.quit = true) : l1.quit = true := by
  cases e with
  | NotifyAdd docNum docID =>
    simp only [step, Option.some.injEq] at h
    subst h
    exact hq
  | NotifySend task =>
    simp only [step] at h
    split at h
    · simp only [Option.some.injEq] at h
      subst h
      exact hq
    · simp at h
  | Start =>
    simp only [step, Option.some.injEq] at h
    subst h
    exact hq
  | StopClose => simp [step, hq] at h
  | StopWait =>
    simp only [step] at h
    split at h
    · simp only [Option.some.injEq] at h
      subst h
      exact hq
    · simp at h
  | runQuit i =>
    simp only [step] at h
    split at h
    · simp only [hq, if_true, Option.some.injEq] at h
      subst h
      rfl
    · simp at h
  | runRecv i =>
    simp only [step] at h
    split at h
    · simp only [Option.some.injEq] at h
      subst h
      exact hq
    · split at h
      · simp only [Option.some.injEq] at h
        subst h
        exact hq
      · simp at h
    · simp at h
  | runLookup i rd =>
    simp only [step] at h
    split at h
    · rename_i task hw
      simp only [Option.some.injEq] at h
      subst h
      have := (lookup_effect c rd l task).2.2.1
      simpa [hq] using this
    · simp at h
  | closeWorkChan =>
    simp only [step] at h
    split at h
    · simp only [Option.some.injEq] at h
      subst h
      exact hq
    · simp at h

/-- A worker that has exited stays so, whatever the other goroutines do. -/
theorem step_worker_exited (c : Codec) (l l1 : Lookuper) (e : Event) (i : Nat)
    (h : step c l e = some l1) (hw : l.workers[i]? = some Worker.exited) :
    l1.workers[i]? = some Worker.exited := by
  have hset : ∀ (j : Nat) (w w1 : Worker), l.workers[j]? = some w → w ≠ Worker.exited →
      (l.workers.set j w1)[i]? = some Worker.exited := by
    intro j w w1 hj hne
    have hji : j ≠ i := by
      intro hji
      subst hji
      rw [hj] at hw
      exact hne (Option.some.inj hw)
    rw [getElem?_set_other l.workers j i w1 hji]
    exact hw
  cases e with
  | NotifyAdd docNum docID =>
    simp only [step, Option.some.injEq] at h
    subst h
    exact hw
  | NotifySend task =>
    simp only [step] at h
    split at h
    · simp only [Option.some.injEq] at h
      subst h
      exact hw
    · simp at h
  | Start =>
    simp only [step, Option.some.injEq] at h
    subst h
    have hlt : i < l.workers.length := by
      by_contra hge
      rw [List.getElem?_eq_none (by omega)] at hw
      exact absurd hw (by simp)
    show (l.workers ++ [Worker.selecting])[i]? = some Worker.exited
    rw [List.getElem?_append_left hlt]
    exact hw
  | StopClose =>
    simp only [step] at h
    split at h
    · simp only [Option.some.injEq] at h
      subst h
      exact hw
    · simp at h
  | StopWait =>
    simp only [step] at h
    split at h
    · simp only [Option.some.injEq] at h
      subst h
      exact hw
    · simp at h
  | runQuit j =>
    simp only [step] at h
    split at h
    · rename_i hj
      split at h
      · simp only [Option.some.injEq] at h
        subst h
        exact hset j _ _ hj (by simp)
      · simp at h
    · simp at h
  | runRecv j =>
    simp only [step] at h
    split at h
    · rename_i task rest hj hq
      simp only [Option.some.injEq] at h
      subst h
      exact hset j _ _ hj (by simp)
    · rename_i hj hq
      split at h
      · simp only [Option.some.injEq] at h
        subst h
        exact hset j _ _ hj (by simp)
      · simp at h
    · simp at h
  | runLookup j rd =>
    simp only [step] at h
    split at h
    · rename_i task hj
      simp only [Option.some.injEq] at h
      subst h
      exact hset j _ _ hj (by simp)
    · simp at h
  | closeWorkChan =>
    simp only [step] at h
    split at h
    · simp only [Option.some.injEq] at h
      subst h
      exact hw
    · simp at h

theorem exec_worker_exited (c : Codec) (l s : Lookuper) (evs : List Event) (i : Nat)
    (h : exec c l evs = some s) (hw : l.workers[i]? = some Worker.exited) :
    s.workers[i]? = some Worker.exited := by
  induction evs generalizing l with
  | nil =>
    simp only [exec, Option.some.injEq] at h
    subst h
    exact hw
  | cons e es ih =>
    obtain ⟨l1, h1, h2⟩ := exec_cons_some c l s e es h
    exact ih l1 h2 (step_worker_exited c l l1 e i h1 hw)

/-- When every worker has exited and `Start` is not called, nothing is looked up. -/
theorem step_all_exited (c : Codec) (l l1 : Lookuper) (e : Event) (h : step c l e = some l1)
    (hall : ∀ w ∈ l.workers, w = Worker.exited) (hstart : e ≠ Event.Start) :
    (∀ w ∈ l1.workers, w = Worker.exited) ∧ l1.f = l.f ∧ l1.tasksDone = l.tasksDone ∧
      stepHistory l e = [] ∧ l1.workChan = l.workChan ++ sentTasks [e] := by
  have hno : ∀ (j : Nat) (w : Worker), l.workers[j]? = some w → w = Worker.exited :=
    fun j w hj => hall w (mem_of_worker_at l.workers j w hj)
  cases e with
  | NotifyAdd docNum docID =>
    simp only [step, Option.some.injEq] at h
    subst h
    exact ⟨hall, rfl, rfl, rfl, by simp [sentTasks]⟩
  | NotifySend task =>
    simp only [step] at h
    split at h
    · simp only [Option.some.injEq] at h
      subst h
      exact ⟨hall, rfl, rfl, rfl, by simp [sentTasks]⟩
    · simp at h
  | Start => exact absurd rfl hstart
  | StopClose =>
    simp only [step] at h
    split at h
    · simp only [Option.some.injEq] at h
      subst h
      exact ⟨hall, rfl, rfl, rfl, by simp [sentTasks]⟩
    · simp at h
  | StopWait =>
    simp only [step] at h
    split at h
    · simp only [Option.some.injEq] at h
      subst h
      exact ⟨hall, rfl, rfl, rfl, by simp [sentTasks]⟩
    · simp at h
  | runQuit j =>
    simp only [step] at h
    split at h
    · rename_i hj
      exact absurd (hno j _ hj) (by simp)
    · simp at h
  | runRecv j =>
    simp only [step] at h
    split at h
    · rename_i task rest hj hq
      exact absurd (hno j _ hj) (by simp)
    · rename_i hj hq
      exact absurd (hno j _ hj) (by simp)
    · simp at h
  | runLookup j rd =>
    simp only [step] at h
    split at h
    · rename_i task hj
      exact absurd (hno j _ hj) (by simp)
    · simp at h
  | closeWorkChan =>
    simp only [step] at h
    split at h
    · simp only [Option.some.injEq] at h
      subst h
      exact ⟨hall, rfl, rfl, rfl, by simp [sentTasks]⟩
    · simp at h

theorem exec_all_exited (c : Codec) (l s : Lookuper) (evs : List Event)
    (h : exec c l evs = some s) (hall : ∀ w ∈ l.workers, w = Worker.exited)
    (hstart : Event.Start ∉ evs) :
    (∀ w ∈ s.workers, w = Worker.exited) ∧ s.f = l.f ∧ s.tasksDone = l.tasksDone ∧
      history c l evs = [] ∧ s.workChan = l.workChan ++ sentTasks evs := by
  induction evs generalizing l with
  | nil =>
    simp only [exec, Option.some.injEq] at h
    subst h
    exact ⟨hall, rfl, rfl, rfl, by simp [sentTasks]⟩
  | cons e es ih =>
    obtain ⟨l1, h1, h2⟩ := exec_cons_some c l s e es h
    have hne : e ≠ Event.Start := fun he => hstart (by rw [he]; exact List.mem_cons_self _ _)
    obtain ⟨a1, a2, a3, a4, a5⟩ := step_all_exited c l l1 e h1 hall hne
    obtain ⟨b1, b2, b3, b4, b5⟩ :=
      ih l1 h2 a1 (fun hmem => hstart (List.mem_cons_of_mem _ hmem))
    refine ⟨b1, by rw [b2, a2], by rw [b3, a3], ?_, ?_⟩
    · rw [history_cons c l l1 e es h1, a4, b4]
      rfl
    · rw [b5, a5, sentTasks_cons e es, List.append_assoc]

/-- C7 (as amended): once `Stop` has closed the quit signal it stays closed, and every
`select` of a worker may take the quit case.  The worker that takes it has exited and
never receives a task again; and when every started worker has exited and `Start` is
not called again, no task is passed to `lookup`: the tasks pending in the queue stay
there, and neither the sink, the document counter nor `tasksDone` change.  A `select`
reached with an empty queue starts no task: if the queue has not been closed it can only
take the quit case, and if the queue has been closed the receive makes the worker exit.
But a `select` reached with a pending task may also take that task, the quit signal being
closed or not. -/
theorem C7_stop (c : Codec) (l : Lookuper) (hquit : l.quit = true) :
    (∀ e s, step c l e = some s → s.quit = true) ∧
    (∀ i, l.workers[i]? = some Worker.selecting →
      ∃ s, step c l (Event.runQuit i) = some s ∧
        s.workers = l.workers.set i Worker.exited ∧ s.workers[i]? = some Worker.exited ∧
        s.workChan = l.workChan ∧ s.f = l.f ∧ s.tasksDone = l.tasksDone ∧
        (∀ evs s1, exec c s evs = some s1 → s1.workers[i]? = some Worker.exited) ∧
        (∀ evs s1, (∀ w ∈ s.workers, w = Worker.exited) → Event.Start ∉ evs →
          exec c s evs = some s1 →
          (∀ w ∈ s1.workers, w = Worker.exited) ∧ s1.f = l.f ∧ s1.tasksDone = l.tasksDone ∧
          history c s evs = [] ∧ s1.workChan = l.workChan ++ sentTasks evs)) ∧
    (∀ i, l.workers[i]? = some Worker.selecting → l.workChan = [] →
      (l.workChanClosed = false → step c l (Event.runRecv i) = none) ∧
      (l.workChanClosed = true →
        ∃ s, step c l (Event.runRecv i) = some s ∧
          s.workers = l.workers.set i Worker.exited ∧ s.workers[i]? = some Worker.exited ∧
          s.f = l.f ∧ s.tasksDone = l.tasksDone ∧ s.workChan = [])) ∧
    (∀ i task rest, l.workers[i]? = some Worker.selecting → l.workChan = task :: rest →
      ∃ s, step c l (Event.runRecv i) = some s ∧
        s.workers[i]? = some (Worker.inLookup task) ∧ s.workChan = rest ∧ s.quit = true) := by
  refine ⟨fun e s h => step_quit_closed c l s e h hquit, ?_, ?_, ?_⟩
  · intro i hw
    have hex : (l.workers.set i Worker.exited)[i]? = some Worker.exited :=
      getElem?_set_same l.workers i _ _ hw
    refine ⟨{ l with
      logger := l.logger ++ [LogLine.askedToQuit],
      closeWait := l.closeWait - 1,
      workers := l.workers.set i Worker.exited }, ?_, rfl, hex, rfl, rfl, rfl, ?_, ?_⟩
    · simp [step, hw, hquit]
    · intro evs s1 h
      exact exec_worker_exited c _ s1 evs i h hex
    · intro evs s1 hall hstart h
      exact exec_all_exited c _ s1 evs h hall hstart
  · intro i hw hq
    refine ⟨?_, ?_⟩
    · intro hc
      simp [step, hw, hq, hc]
    · intro hc
      refine ⟨{ l with
        logger := l.logger ++ [LogLine.workChannelClosed],
        workers := l.workers.set i Worker.exited }, ?_, rfl,
        getElem?_set_same l.workers i _ _ hw, rfl, rfl, hq⟩
      simp [step, hw, hq, hc]
  · intro i task rest hw hq
    exact ⟨{ l with workChan := rest, workers := l.workers.set i (Worker.inLookup task) },
      by simp [step, hw, hq], getElem?_set_same l.workers i _ _ hw, rfl, hquit⟩

/-- C7 (as amended) at a concrete input: in the state reached by `demoStopRun` the quit
signal is closed, and the worker can exit, leaving the pending task in the queue. -/
theorem C7_stop_witness :
    exec demoCodec (demoLookuper 4) demoStopRun = some demoStopState ∧
    demoStopState.quit = true ∧
    ∃ s, step demoCodec demoStopState (Event.runQuit 0) = some s ∧
      s.workers = [Worker.exited] ∧
      s.workChan = [lookupTask.mk [1] 7] ∧ s.f = Firestorm.mk 4 [] :=
  ⟨by decide, rfl,
   ((C7_stop demoCodec demoStopState rfl).2.1 0 rfl).imp
     (fun _ h => ⟨h.1, h.2.1, h.2.2.2.1, h.2.2.2.2.1⟩)⟩

/-- C7 fails as stated: `Stop` closes the quit signal while the worker is at its `select`
and one task, not yet started, is pending in the queue; the worker's next action may be
the receive of that task, which is then passed to `lookup` and migrated. -/
theorem C7_stop_counterexample :
    (exec demoCodec (demoLookuper 4) demoStopRun).map
      (fun s => (s.quit, s.workers, s.workChan, s.f.compensator)) =
      some (true, [Worker.selecting], [lookupTask.mk [1] 7], []) ∧
    (exec demoCodec (demoLookuper 4) (demoStopRun ++ [Event.runRecv 0])).map
      (fun s => (s.quit, s.workers, s.workChan)) =
      some (true, [Worker.inLookup (lookupTask.mk [1] 7)], []) ∧
    (exec demoCodec (demoLookuper 4)
        (demoStopRun ++ [Event.runRecv 0, Event.runLookup 0 (Except.ok demoReader)])).map
      (fun s => (s.quit, s.workers, s.f.compensator, s.tasksDone)) =
      some (true, [Worker.selecting], [MigrateCall.mk [1] 7 [3, 5]], 1) := by
  decide

/-! ### Counting a document once -/

theorem lookup_docCount_pos (c : Codec) (reader : KVReader) (docID : Bytes)
    (hdec : ∀ kv ∈ matchingRows reader (c.TermFreqPrefixFieldTermDocId 0 [] docID),
      decodes c kv = true)
    (l : Lookuper) (v : Nat) (hv : v ≠ 0) :
    (lookup c (Except.ok reader) l (lookupTask.mk docID v)).f.docCount =
      if ∀ d ∈ scannedDocNums c reader docID, v ≤ d then (l.f.docCount + 1) % 2 ^ 64
      else l.f.docCount := by
  have hok : lookupOk c (lookupTask.mk docID v) (Except.ok reader) = true :=
    List.all_eq_true.2 hdec
  rw [lookup_ok c reader l _ _ _ (lookupScan_of_ok c reader l.logger _ hok)]
  show updateDocCount _ (oldDocNumsLoop _ (scannedDocNums c reader docID) []) l.f.docCount = _
  rw [oldDocNumsLoop_pos _ _ (show (lookupTask.mk docID v).docNum ≠ 0 from hv)]
  by_cases hmin : ∀ d ∈ scannedDocNums c reader docID, v ≤ d
  · have hnil : (scannedDocNums c reader docID).filter (fun d => decide (d < v)) = [] := by
      rw [List.filter_eq_nil_iff]
      intro d hd
      have := hmin d hd
      simp only [decide_eq_true_eq]
      omega
    rw [if_pos hmin]
    simp [updateDocCount, hnil, hv, uint64Mod]
  · have hne : (scannedDocNums c reader docID).filter (fun d => decide (d < v)) ≠ [] := by
      intro hnil
      rw [List.filter_eq_nil_iff] at hnil
      apply hmin
      intro d hd
      have := hnil d hd
      simp only [decide_eq_true_eq] at this
      omega
    have hlen := List.length_pos.2 hne
    simp only [updateDocCount, if_neg hmin]
    simp [hv, Nat.ne_of_gt hlen]

theorem exists_min_of_ne_nil (S : List Nat) (h : S ≠ []) : ∃ m ∈ S, ∀ d ∈ S, m ≤ d := by
  induction S with
  | nil => exact absurd rfl h
  | cons a rest ih =>
    by_cases hr : rest = []
    · subst hr
      exact ⟨a, by simp, by simp⟩
    · obtain ⟨m, hm, hmin⟩ := ih hr
      by_cases ham : a ≤ m
      · refine ⟨a, by simp, ?_⟩
        intro d hd
        rcases List.mem_cons.1 hd with rfl | hd1
        · exact le_refl _
        · exact le_trans ham (hmin d hd1)
      · refine ⟨m, List.mem_cons_of_mem _ hm, ?_⟩
        intro d hd
        rcases List.mem_cons.1 hd with rfl | hd1
        · omega
        · exact hmin d hd1

theorem lookupEach_docCount (c : Codec) (reader : KVReader) (docID : Bytes)
    (hdec : ∀ kv ∈ matchingRows reader (c.TermFreqPrefixFieldTermDocId 0 [] docID),
      decodes c kv = true)
    (m : Nat) (hm : m ∈ scannedDocNums c reader docID)
    (hmin : ∀ d ∈ scannedDocNums c reader docID, m ≤ d)
    (order : List Nat) (l : Lookuper)
    (hmem : ∀ v ∈ order, v ∈ scannedDocNums c reader docID ∧ v ≠ 0)
    (hnodup : order.Nodup) :
    (lookupEach c reader docID l order).f.docCount =
      if m ∈ order then (l.f.docCount + 1) % 2 ^ 64 else l.f.docCount := by
  induction order generalizing l with
  | nil => simp [lookupEach]
  | cons v rest ih =>
    obtain ⟨hvS, hv0⟩ := hmem v (List.mem_cons_self _ _)
    have hnd := List.nodup_cons.1 hnodup
    have hrec := ih (lookup c (Except.ok reader) l (lookupTask.mk docID v))
      (fun w hw => hmem w (List.mem_cons_of_mem _ hw)) hnd.2
    have hone := lookup_docCount_pos c reader docID hdec l v hv0
    simp only [lookupEach]
    rw [hrec, hone]
    by_cases hvm : v = m
    · subst hvm
      rw [if_neg hnd.1, if_pos hmin, if_pos (List.mem_cons_self _ _)]
    · have hnotmin : ¬ ∀ d ∈ scannedDocNums c reader docID, v ≤ d := by
        intro hall
        have h1 := hall m hm
        have h2 := hmin v hvS
        omega
      have hiff : (m ∈ v :: rest) ↔ m ∈ rest := by
        simp [List.mem_cons, Ne.symm hvm]
      simp only [if_neg hnotmin, hiff]

/-- C8: a document is counted once, whatever the processing order.  For a snapshot in
which the rows under a document's prefix all decode, to a non-empty list `S` of non-zero
sequence numbers, the task whose target is the minimum of `S` increments the live counter
(modulo `2 ^ 64`), a task whose target is any other value of `S` leaves it unchanged, and
processing one task per distinct value of `S`, in any order, changes the counter by
exactly `+1` modulo `2 ^ 64`. -/
theorem C8_counted_once (c : Codec) (reader : KVReader) (docID : Bytes) (S : List Nat)
    (hdec : ∀ kv ∈ matchingRows reader (c.TermFreqPrefixFieldTermDocId 0 [] docID),
      decodes c kv = true)
    (hS : scannedDocNums c reader docID = S) (hne : S ≠ []) (hnz : ∀ v ∈ S, v ≠ 0) :
    ∃ m ∈ S, (∀ d ∈ S, m ≤ d) ∧
      (∀ (l : Lookuper) (v : Nat), v ∈ S →
        (lookup c (Except.ok reader) l (lookupTask.mk docID v)).f.docCount =
          if v = m then (l.f.docCount + 1) % 2 ^ 64 else l.f.docCount) ∧
      (∀ (l : Lookuper) (order : List Nat), order.Perm S.dedup →
        (lookupEach c reader docID l order).f.docCount = (l.f.docCount + 1) % 2 ^ 64) := by
  subst hS
  obtain ⟨m, hm, hmin⟩ := exists_min_of_ne_nil _ hne
  refine ⟨m, hm, hmin, ?_, ?_⟩
  · intro l v hv
    rw [lookup_docCount_pos c reader docID hdec l v (hnz v hv)]
    by_cases hvm : v = m
    · subst hvm
      rw [if_pos hmin, if_pos rfl]
    · have hnotmin : ¬ ∀ d ∈ scannedDocNums c reader docID, v ≤ d := by
        intro hall
        have h1 := hall m hm
        have h2 := hmin v hv
        omega
      simp only [if_neg hnotmin, if_neg hvm]
  · intro l order hperm
    have hmem : ∀ v ∈ order, v ∈ scannedDocNums c reader docID ∧ v ≠ 0 := by
      intro v hv
      have : v ∈ scannedDocNums c reader docID := List.mem_dedup.1 (hperm.mem_iff.1 hv)
      exact ⟨this, hnz v this⟩
    have hnodup : order.Nodup := hperm.nodup_iff.2 (List.nodup_dedup _)
    have hin : m ∈ order := hperm.mem_iff.2 (List.mem_dedup.2 hm)
    rw [lookupEach_docCount c reader docID hdec m hm hmin order l hmem hnodup, if_pos hin]

/-- C8 at a concrete input: document `[1]` has rows at 3 and 5; the tasks for targets 5
and 3, in that order, move the counter from 4 to 5. -/
theorem C8_counted_once_witness :
    (lookupEach demoCodec demoReader [1] (demoLookuper 4) [5, 3]).f.docCount = (4 + 1) % 2 ^ 64 :=
  (C8_counted_once demoCodec demoReader [1] [3, 5] (by decide) (by decide) (by decide)
    (by decide)).elim
    (fun _ h => h.2.2.2 (demoLookuper 4) [5, 3] (by decide))

/-! ### The task counters -/

theorem waitTasksDone_timeout (l : Lookuper) (h : l.tasksQueued ≠ l.tasksDone) (ticks : Nat) :
    waitTasksDone l ticks = Except.error "timeout" := by
  induction ticks with
  | zero => rfl
  | succ n ih =>
    have hb : (l.tasksQueued == l.tasksDone) = false := by simpa using h
    simp only [waitTasksDone, hb, Bool.false_eq_true, if_false, ih]

/-- C9: `lookup` increments `tasksDone` (by one, modulo `2 ^ 64`) exactly when the task
completes without a reader or scan error, and leaves it unchanged for a failed task.
Hence, in a run from `NewLookuper` in which `n` tasks were notified (`n` below `2 ^ 64`,
the range of the counters), all were consumed by the workers, and `k ≥ 1` of them failed (`k` fatal
lines were logged): `tasksQueued = n`, `tasksDone = n - k < n`, and the check
`queued == done` of `waitTasksDone` never succeeds: it times out however many ticks it
is given. -/
theorem C9_failed_task_blocks_drain (c : Codec) (f : Firestorm) (evs : List Event)
    (s : Lookuper) (hrun : exec c (NewLookuper f) evs = some s) :
    (∀ rd l task,
      (lookup c rd l task).tasksDone =
        if lookupOk c task rd = true then (l.tasksDone + 1) % 2 ^ 64 else l.tasksDone) ∧
    (∀ rd l task, l.tasksDone < 2 ^ 64 →
      ((lookup c rd l task).tasksDone = (l.tasksDone + 1) % 2 ^ 64 ↔ lookupOk c task rd = true)) ∧
    (s.sending = [] → s.workChan = [] → inFlightAll s.workers = [] →
      notifyCount evs < 2 ^ 64 → 1 ≤ fatalCount s.logger →
      s.tasksQueued = notifyCount evs ∧
      s.tasksDone + fatalCount s.logger = notifyCount evs ∧
      s.tasksDone < s.tasksQueued ∧
      ∀ ticks, waitTasksDone s ticks = Except.error "timeout") := by
  have hone : ∀ rd l task,
      (lookup c rd l task).tasksDone =
        if lookupOk c task rd = true then (l.tasksDone + 1) % 2 ^ 64 else l.tasksDone := by
    intro rd l task
    obtain ⟨_, _, _, _, _, _, _, eok, efail⟩ := lookup_effect c rd l task
    by_cases hok : lookupOk c task rd = true
    · rw [if_pos hok, (eok hok).2.1]
      rfl
    · have hok1 : lookupOk c task rd = false := by simpa using hok
      rw [if_neg hok, (efail hok1).2.1]
  refine ⟨hone, ?_, ?_⟩
  · intro rd l task hlt
    rw [hone]
    by_cases hok : lookupOk c task rd = true
    · simp [hok]
    · rw [if_neg hok]
      have hmod : l.tasksDone ≠ (l.tasksDone + 1) % 2 ^ 64 := by omega
      exact ⟨fun heq => absurd heq hmod, fun h => absurd h hok⟩
  · intro hsend hqueue hworker hn hk
    obtain ⟨b1, b2, b3, b4, b5⟩ := exec_new_inv c f s evs hrun
    rw [hsend] at b3
    rw [hqueue, hworker] at b4
    simp only [List.length_nil, Nat.zero_add, Nat.add_zero] at b3 b4
    have hqueued : s.tasksQueued = notifyCount evs := by omega
    have hdone : s.tasksDone + fatalCount s.logger = notifyCount evs := by omega
    refine ⟨hqueued, hdone, by omega, ?_⟩
    intro ticks
    exact waitTasksDone_timeout s (by omega) ticks

/-- C9 at a concrete input: one task is notified and consumed, and fails on a corrupt
row; `tasksQueued` is 1, `tasksDone` is 0 and the drain-wait times out. -/
theorem C9_failed_task_blocks_drain_witness :
    exec demoCodec (demoLookuper 4) demoFailRun = some demoFailState ∧
    demoFailState.tasksQueued = 1 ∧ demoFailState.tasksDone + 1 = 1 ∧
    waitTasksDone demoFailState 5 = Except.error "timeout" :=
  have h := (C9_failed_task_blocks_drain demoCodec (Firestorm.mk 4 []) demoFailRun
    demoFailState (by decide)).2.2 rfl rfl rfl (by decide) (by decide)
  ⟨by decide, h.1, h.2.1, h.2.2.2 5⟩

/-- C10: in every state reached from `NewLookuper` by a run with fewer than `2 ^ 64`
notifications, `tasksDone` plus the number of tasks pending in the queue or in progress
is at most `tasksQueued` (so `tasksDone ≤ tasksQueued`), and no further action makes
either counter decrease, as long as the notifications stay fewer than `2 ^ 64`. -/
theorem C10_counter_invariant (c : Codec) (f : Firestorm) (evs : List Event) (s : Lookuper)
    (hrun : exec c (NewLookuper f) evs = some s) (hn : notifyCount evs < 2 ^ 64) :
    s.tasksDone + s.workChan.length + (inFlightAll s.workers).length ≤ s.tasksQueued ∧
    s.tasksDone ≤ s.tasksQueued ∧
    ∀ e s1, step c s e = some s1 → notifyCount (evs ++ [e]) < 2 ^ 64 →
      s.tasksQueued ≤ s1.tasksQueued ∧ s.tasksDone ≤ s1.tasksDone := by
  have key : ∀ (evs : List Event) (s : Lookuper), exec c (NewLookuper f) evs = some s →
      notifyCount evs < 2 ^ 64 →
      s.tasksQueued = notifyCount evs ∧
      s.tasksDone = okCount c (history c (NewLookuper f) evs) ∧
      okCount c (history c (NewLookuper f) evs) + s.workChan.length +
        (inFlightAll s.workers).length ≤ notifyCount evs := by
    intro evs s hrun hn
    obtain ⟨b1, b2, b3, b4, b5⟩ := exec_new_inv c f s evs hrun
    refine ⟨by omega, by omega, by omega⟩
  obtain ⟨k1, k2, k3⟩ := key evs s hrun hn
  refine ⟨by omega, by omega, ?_⟩
  intro e s1 hstep hn1
  have hrun1 : exec c (NewLookuper f) (evs ++ [e]) = some s1 := by
    rw [exec_append c _ s evs [e] hrun]
    simp only [exec, hstep]
  obtain ⟨m1, m2, _⟩ := key (evs ++ [e]) s1 hrun1 hn1
  have hhist : okCount c (history c (NewLookuper f) evs) ≤
      okCount c (history c (NewLookuper f) (evs ++ [e])) := by
    rw [history_append c _ s evs [e] hrun, okCount_append]
    omega
  rw [notifyCount_append] at m1
  omega

/-- C10 at a concrete input: after `demoRun` both counters are 2 and nothing is pending,
and a further notification does not make them decrease. -/
theorem C10_counter_invariant_witness :
    demoRunState.tasksDone + demoRunState.workChan.length +
      (inFlightAll demoRunState.workers).length ≤ demoRunState.tasksQueued ∧
    demoRunState.tasksDone ≤ demoRunState.tasksQueued :=
  have h := C10_counter_invariant demoCodec (Firestorm.mk 4 []) demoRun demoRunState
    (by decide) (by decide)
  ⟨h.1, h.2.1⟩

end Bleve
